import Mathlib

/-!
Verification development for the Webflow-Automation repository
(bulk CSV upload pipeline: CSV codec, JSON record store, audit trail,
upload orchestrator).

The Python sources are shallowly embedded:
* Python strings and file contents are `List Char` (named `Str` below);
  bytes-level UTF-8 has already been decoded, with the optional byte-order
  marker kept as the character `'﻿'`.
* `datetime` timestamps are natural numbers; the ISO rendering used by
  `generate_csv` is modelled by the decimal rendering `tsRender` (an
  injective rendering into digit characters, standing in for ISO-8601).
* The `csv` module reader is modelled by the state machine `csvGo`
  (record start / unquoted field / quoted field / after closing quote),
  the writer by `writeRow` with minimal quoting, matching
  `quoting=csv.QUOTE_MINIMAL, lineterminator='\n'`.
* `dict` insertion/update semantics (first position, last value) are
  modelled by `dictOfPairs`.
* Exceptions become `Except`; the JSON library used by the store is an
  explicit collaborator parameter of `read_json`.
-/

namespace WFA

/-- Python strings are modelled as lists of characters. -/
abbrev Str := List Char

/-- Characters stripped by Python `str.strip()` (ASCII whitespace). -/
def pyIsSpace (c : Char) : Bool :=
  c = ' ' ∨ c = '\t' ∨ c = '\n' ∨ c = '\r' ∨ c = '\x0b' ∨ c = '\x0c'

/-- Python `str.strip()`: drop whitespace from both ends. -/
def pyStrip (s : Str) : Str :=
  ((s.dropWhile pyIsSpace).reverse.dropWhile pyIsSpace).reverse

/-- Python `str.lower()` (ASCII case fold, which covers the repository data). -/
def toLowerStr (s : Str) : Str := s.map Char.toLower

/-- Boolean test that `p` begins the string `s` (Python `str.startswith`). -/
def startsWithStr (p s : Str) : Bool := List.isPrefixOf p s

/-- Boolean test that `p` ends the string `s` (Python `str.endswith`). -/
def endsWithStr (p s : Str) : Bool := List.isSuffixOf p s

/-- Substring occurrence, Python `needle in hay`. -/
def hasSub (needle : Str) : Str → Bool
  | [] => List.isPrefixOf needle []
  | c :: t => List.isPrefixOf needle (c :: t) || hasSub needle t

/-- Decimal rendering of a natural number (model of timestamp rendering). -/
def tsRender (n : Nat) : Str := (toString n).data

/-- The UTF-8 byte-order marker as a character. -/
def bomChar : Char := '﻿'

/-- Python `bytes.decode("utf-8-sig")`: drop one leading byte-order marker. -/
def stripBom (s : Str) : Str :=
  match s with
  | c :: t => if c = bomChar then t else c :: t
  | [] => []

/-! ## The csv module

`csvGo` is the reader state machine. States: `3` = start of record,
`0` = inside an unquoted field, `1` = inside a quoted field, `2` = just
after a closing quote. `fa` accumulates the current field reversed,
`ra` accumulates the completed fields of the current record reversed. -/

/-- State machine of the `csv` reader (Python default dialect, `\n` rows). -/
def csvGo : List Char → Nat → List Char → List (List Char) → List (List (List Char))
  | [], st, fa, ra =>
      if st = 3 then [] else [(fa.reverse :: ra).reverse]
  | c :: t, st, fa, ra =>
      if st = 1 then
        if c = '"' then csvGo t 2 fa ra else csvGo t 1 (c :: fa) ra
      else if st = 2 then
        if c = '"' then csvGo t 1 ('"' :: fa) ra
        else if c = ',' then csvGo t 0 [] (fa.reverse :: ra)
        else if c = '\n' then (fa.reverse :: ra).reverse :: csvGo t 3 [] []
        else csvGo t 0 (c :: fa) ra
      else if st = 3 then
        if c = '"' then csvGo t 1 [] ra
        else if c = ',' then csvGo t 0 [] (fa.reverse :: ra)
        else if c = '\n' then [] :: csvGo t 3 [] []
        else csvGo t 0 (c :: fa) ra
      else
        if c = '"' then
          (if fa = [] then csvGo t 1 [] ra else csvGo t 0 ('"' :: fa) ra)
        else if c = ',' then csvGo t 0 [] (fa.reverse :: ra)
        else if c = '\n' then (fa.reverse :: ra).reverse :: csvGo t 3 [] []
        else csvGo t 0 (c :: fa) ra

/-- All records of a csv text (`csv.reader` over the whole content). -/
def csvRows (s : Str) : List (List Str) := csvGo s 3 [] []

/-- Does a field require quoting under `QUOTE_MINIMAL`? -/
def needsQuote (f : Str) : Bool :=
  f.any (fun c => c = ',' ∨ c = '"' ∨ c = '\n' ∨ c = '\r')

/-- Double every quote character (csv writer escaping). -/
def escField (f : Str) : Str :=
  f.flatMap (fun c => if c = '"' then ['"', '"'] else [c])

/-- Render one field, quoting minimally (csv writer). -/
def writeField (f : Str) : Str :=
  if needsQuote f then '"' :: (escField f ++ ['"']) else f

/-- Join rendered fields with the `','` delimiter. -/
def joinComma : List Str → Str
  | [] => []
  | [f] => f
  | f :: g :: rest => f ++ ',' :: joinComma (g :: rest)

/-- Render one record followed by the `'\n'` line terminator (csv writer). -/
def writeRow (fs : List Str) : Str :=
  joinComma (fs.map writeField) ++ ['\n']

/-! ## Python dict semantics -/

/-- Insert a key/value pair with Python dict semantics: an existing key
keeps its position but the value is replaced; a fresh key is appended. -/
def insKL {β : Type} (acc : List (Str × β)) (kv : Str × β) : List (Str × β) :=
  if acc.any (fun kv2 => kv2.1 == kv.1) then
    acc.map (fun kv2 => if kv2.1 == kv.1 then (kv2.1, kv.2) else kv2)
  else acc ++ [kv]

/-- Build a dict from a pair list, later values for the same key winning. -/
def dictOfPairs {β : Type} (l : List (Str × β)) : List (Str × β) :=
  l.foldl insKL []

/-- Dict lookup: `none` when the key is absent, otherwise the stored value. -/
def dGet {β : Type} (d : List (Str × β)) (k : Str) : Option β :=
  (d.find? (fun kv => kv.1 == k)).map (fun kv => kv.2)

/-- The row dict a `csv.DictReader` produces: `dict(zip(fieldnames, row))`,
missing values filled with the `None` restval and surplus values dropped
(they land under the `None` restkey, which every later `if k` filter skips). -/
def rowDict (header row : List Str) : List (Str × Option Str) :=
  dictOfPairs (header.zip
    (row.map some ++ List.replicate (header.length - row.length) none))

/-- Shorthand turning a Lean string literal into the `Str` character model. -/
def S (s : String) : Str := s.data

/-- Decidable equality for `Except`, used to evaluate concrete runs. -/
instance {ε α : Type} [DecidableEq ε] [DecidableEq α] : DecidableEq (Except ε α) :=
  fun x y =>
    match x, y with
    | .ok a, .ok b => if h : a = b then .isTrue (by rw [h]) else .isFalse (by simp [h])
    | .error a, .error b => if h : a = b then .isTrue (by rw [h]) else .isFalse (by simp [h])
    | .ok _, .error _ => .isFalse (by simp)
    | .error _, .ok _ => .isFalse (by simp)

/-! ## app/models/schemas.py -/

/-- `PageSchema`: Webflow page metadata (timestamps modelled as naturals). -/
structure PageSchema where
  slug : Str
  title : Option Str
  meta_description : Option Str
  updated_at : Nat
  deriving DecidableEq, Repr

/-- `AuditLogSchema`: one immutable audit trail entry. -/
structure AuditLogSchema where
  id : Str
  slug : Str
  old_title : Option Str
  old_meta_description : Option Str
  new_title : Option Str
  new_meta_description : Option Str
  changed_by : Str
  changed_at : Nat
  ip_address : Option Str
  user_agent : Str
  deriving DecidableEq, Repr

/-- Pydantic construction of a `PageSchema`: the `slug` field constraints
(`min_length=1, max_length=500`), the `validate_slug` field validator
(must begin with `/`, no `..`, no `//`, returns `v.strip().lower()`),
then the `title` (max 200) and `meta_description` (max 300) bounds.
Returns the first violation as the error message. -/
def mkPageSchema (slug : Str) (title meta_description : Option Str)
    (updated_at : Nat) : Except Str PageSchema :=
  if slug.length < 1 then .error (S "String should have at least 1 character")
  else if slug.length > 500 then .error (S "String should have at most 500 characters")
  else if ¬ startsWithStr (S "/") slug then .error (S "Slug must start with /")
  else if hasSub (S "..") slug ∨ hasSub (S "//") slug then .error (S "Invalid slug path")
  else match title with
  | some t =>
    if t.length > 200 then .error (S "String should have at most 200 characters")
    else match meta_description with
      | some m =>
        if m.length > 300 then .error (S "String should have at most 300 characters")
        else .ok ⟨toLowerStr (pyStrip slug), title, meta_description, updated_at⟩
      | none => .ok ⟨toLowerStr (pyStrip slug), title, none, updated_at⟩
  | none => match meta_description with
    | some m =>
      if m.length > 300 then .error (S "String should have at most 300 characters")
      else .ok ⟨toLowerStr (pyStrip slug), none, meta_description, updated_at⟩
    | none => .ok ⟨toLowerStr (pyStrip slug), none, none, updated_at⟩

/-! ## app/services/csv_handler.py -/

/-- `CSVHandler.REQUIRED_HEADERS`. -/
def REQUIRED_HEADERS : List Str := [S "slug", S "title", S "meta_description"]

/-- `CSVHandler.OPTIONAL_HEADERS`. -/
def OPTIONAL_HEADERS : List Str := [S "updated_at", S "keywords", S "canonical_url"]

/-- `CSVHandler.MAX_ROWS`. -/
def MAX_ROWS : Nat := 10000

/-- `CSVHandler.MAX_FILE_SIZE` (10 MB). -/
def MAX_FILE_SIZE : Nat := 10 * 1024 * 1024

/-- `CSVHandler.MAX_FIELD_LENGTH`. -/
def MAX_FIELD_LENGTH : Nat := 1000

/-- `CSVHandler.SLUG_PATTERN`, the anchored regex `^/[a-zA-Z0-9/_-]*$`. -/
def SLUG_PATTERN (s : Str) : Bool :=
  match s with
  | '/' :: rest =>
      rest.all (fun c => c.isAlpha ∨ c.isDigit ∨ c = '/' ∨ c = '_' ∨ c = '-')
  | _ => false

/-- The value transform of the `parse_csv` row normalisation:
`v.strip() if v else None` (both `None` and the empty string become `None`). -/
def stripVal : Option Str → Option Str
  | none => none
  | some s => if s = [] then none else some (pyStrip s)

/-- Row normalisation of `_validate_rows`:
`{k.lower().strip(): v for k, v in row.items() if k}`. -/
def normValidate (header row : List Str) : List (Str × Option Str) :=
  dictOfPairs (((rowDict header row).filter (fun kv => kv.1 ≠ [])).map
    (fun kv => (pyStrip (toLowerStr kv.1), kv.2)))

/-- Row normalisation of `parse_csv`:
`{k.lower().strip(): v.strip() if v else None for k, v in row.items() if k}`. -/
def normParse (header row : List Str) : List (Str × Option Str) :=
  dictOfPairs (((rowDict header row).filter (fun kv => kv.1 ≠ [])).map
    (fun kv => (pyStrip (toLowerStr kv.1), stripVal kv.2)))

/-- `normalized_row.get(key, "")` followed by `.strip()` being applied by the
caller: an absent key yields the `""` default, a present key with a `None`
value makes `.strip()` raise `AttributeError` (modelled as the exception). -/
def getStrOrRaise (nd : List (Str × Option Str)) (k : Str) : Except Unit Str :=
  match dGet nd k with
  | none => .ok []
  | some none => .error ()
  | some (some s) => .ok s

/-- Error message prefix `f"Row {row_num}: ..."`. -/
def rowMsg (n : Nat) (msg : Str) : Str := S "Row " ++ tsRender n ++ S ": " ++ msg

/-- One iteration of the `_validate_rows` loop: the errors this row
contributes and the updated seen-slug set; `.error ()` models the
`AttributeError` a `None` field value raises. -/
def vRow (header row : List Str) (n : Nat) (seen : List Str) :
    Except Unit (List Str × List Str) :=
  match getStrOrRaise (normValidate header row) (S "slug") with
  | .error () => .error ()
  | .ok rawSlug =>
    let slug := pyStrip rawSlug
    if slug = [] then .ok ([rowMsg n (S "Slug is required but empty")], seen)
    else
      let e1 := if ¬ SLUG_PATTERN slug then [rowMsg n (S "Invalid slug format")] else []
      let e2 := if hasSub (S "..") slug ∨ hasSub (S "//") slug then
          [rowMsg n (S "Slug cannot contain .. or //")] else []
      let e3 := if toLowerStr slug ∈ seen then [rowMsg n (S "Duplicate slug")] else []
      let seen2 := if toLowerStr slug ∈ seen then seen else toLowerStr slug :: seen
      match getStrOrRaise (normValidate header row) (S "title") with
      | .error () => .error ()
      | .ok rawTitle =>
        let title := pyStrip rawTitle
        let e4 := if title ≠ [] ∧ title.length > 200 then
            [rowMsg n (S "Title too long")] else []
        match getStrOrRaise (normValidate header row) (S "meta_description") with
        | .error () => .error ()
        | .ok rawMeta =>
          let meta := pyStrip rawMeta
          let e5 := if meta ≠ [] ∧ meta.length > 300 then
              [rowMsg n (S "Meta description too long")] else []
          let e6 := (normValidate header row).filterMap (fun kv =>
            match kv.2 with
            | some v =>
                if v ≠ [] ∧ v.length > MAX_FIELD_LENGTH then
                  some (rowMsg n (S "Field exceeds maximum length"))
                else none
            | none => none)
          .ok (e1 ++ e2 ++ e3 ++ e4 ++ e5 ++ e6, seen2)

/-- The `_validate_rows` loop over the data rows (row numbering from 1,
hard stop with a single error once `MAX_ROWS` is exceeded). -/
def vRows (header : List Str) :
    List (List Str) → Nat → List Str → Except Unit (List Str)
  | [], _, _ => .ok []
  | row :: rest, n, seen =>
    let n2 := n + 1
    if n2 > MAX_ROWS then .ok [S "Too many rows"]
    else
      match vRow header row n2 seen with
      | .error () => .error ()
      | .ok (errs, seen2) => (vRows header rest n2 seen2).map (fun es => errs ++ es)

/-- `{h.lower().strip() for h in reader.fieldnames if h}` (kept as a list;
only membership is ever used). -/
def headersLowerOf (header : List Str) : List Str :=
  (header.filter (fun h => h ≠ [])).map (fun h => pyStrip (toLowerStr h))

/-- The data rows a `csv.DictReader` iterates: every record after the
header row, blank records skipped. -/
def dataRows (rest : List (List Str)) : List (List Str) :=
  rest.filter (fun r => r ≠ [])

/-- The warning list for unexpected columns (`Warning: Unexpected columns
will be ignored`, with the column listing elided from the message model). -/
def validateWarnings (header : List Str) : List Str :=
  if (headersLowerOf header).any
      (fun h => ¬ (h ∈ REQUIRED_HEADERS ∨ h ∈ OPTIONAL_HEADERS)) then
    [S "Warning: Unexpected columns will be ignored"]
  else []

/-- `CSVHandler.validate_csv_file`: size and emptiness guards, header
checks, row validation, warnings for unexpected columns; validity is the
absence of non-warning errors. -/
def validate_csv_file (content : Str) : Bool × List Str :=
  if content.length = 0 then (false, [S "File is empty"])
  else if content.length > MAX_FILE_SIZE then (false, [S "File too large"])
  else
    let text := stripBom content
    if pyStrip text = [] then (false, [S "File contains no data"])
    else
      match csvRows text with
      | [] => (false, [S "No headers found in CSV file"])
      | header :: rest =>
        if header = [] then (false, [S "No headers found in CSV file"])
        else
          if ¬ REQUIRED_HEADERS.all (fun h => h ∈ headersLowerOf header) then
            (false, [S "Missing required columns"])
          else
            match vRows header (dataRows rest) 0 [] with
            | .error () => (false, [S "Unexpected validation error"])
            | .ok rowErrors =>
              let errors := rowErrors ++ validateWarnings header
              let critical := errors.filter (fun e => ¬ startsWithStr (S "Warning:") e)
              (critical.isEmpty, errors)

/-- The normalised slug key `slug.lower().strip()` a `parse_csv` row yields,
or `none` when the slug value is missing, `None`, or empty (`if not slug`). -/
def pSlugKey (header row : List Str) : Option Str :=
  match dGet (normParse header row) (S "slug") with
  | some (some s) => if s = [] then none else some (pyStrip (toLowerStr s))
  | _ => none

/-- `normalized.get(key) or None`: collapse an absent key, a `None` value
and an empty string all to `None`. -/
def pyOrNone (v : Option (Option Str)) : Option Str :=
  match v with
  | some (some s) => if s = [] then none else some s
  | _ => none

/-- The `PageSchema(...)` construction a `parse_csv` row attempts. -/
def pRowPage (header row : List Str) (now : Nat) : Except Str PageSchema :=
  let nd := normParse header row
  let s := match dGet nd (S "slug") with
    | some (some v) => v
    | _ => []
  mkPageSchema (pyStrip (toLowerStr s)) (pyOrNone (dGet nd (S "title")))
    (pyOrNone (dGet nd (S "meta_description"))) now

/-- The `parse_csv` row loop: accumulates pages and row errors, skipping
rows whose normalised slug was already seen (first occurrence wins). -/
def pLoop (header : List Str) (now : Nat) :
    List (List Str) → Nat → List Str → List PageSchema × List Str
  | [], _, _ => ([], [])
  | row :: rest, n, seen =>
    let n2 := n + 1
    match pSlugKey header row with
    | none =>
      let r := pLoop header now rest n2 seen
      (r.1, rowMsg n2 (S "Missing slug") :: r.2)
    | some key =>
      if key ∈ seen then pLoop header now rest n2 seen
      else
        match pRowPage header row now with
        | .ok page =>
          let r := pLoop header now rest n2 (key :: seen)
          (page :: r.1, r.2)
        | .error msg =>
          let r := pLoop header now rest n2 (key :: seen)
          (r.1, rowMsg n2 msg :: r.2)

/-- A `CSVException`: its message and the `details["errors"]` list the
upload route surfaces (empty when the exception carried no row errors). -/
structure CSVError where
  message : Str
  errorsDetail : List Str
  deriving DecidableEq, Repr

/-- The tail of `parse_csv` after the row loop: raise a `CSVException`
carrying the row errors when any occurred, raise when no valid page
resulted, otherwise return the pages. -/
def parseFinish (r : List PageSchema × List Str) : Except CSVError (List PageSchema) :=
  if r.2 ≠ [] then .error ⟨S "CSV parsing completed with errors", r.2⟩
  else if r.1 = [] then .error ⟨S "No valid pages found in CSV file", []⟩
  else .ok r.1

/-- `CSVHandler.parse_csv`: decode, read rows, run the row loop, raise on
row errors or an empty result; `now` is the `datetime.utcnow()` of the call. -/
def parse_csv (content : Str) (now : Nat) : Except CSVError (List PageSchema) :=
  match csvRows (stripBom content) with
  | [] => .error ⟨S "No valid pages found in CSV file", []⟩
  | header :: rest =>
    parseFinish (pLoop header now (dataRows rest) 0 [])

/-- The fixed output column order of `generate_csv`. -/
def CSV_FIELDNAMES : List Str := [S "slug", S "title", S "meta_description", S "updated_at"]

/-- The writer row for one page: empty optional fields render as `""`,
the timestamp through its rendering. -/
def pageRow (p : PageSchema) : List Str :=
  [p.slug, p.title.getD [], p.meta_description.getD [], tsRender p.updated_at]

/-- `CSVHandler.generate_csv`: header line plus one line per page, encoded
with a leading byte-order marker; fails on an empty page list. -/
def generate_csv (pages : List PageSchema) : Except CSVError Str :=
  if pages = [] then .error ⟨S "No pages to export", []⟩
  else .ok (bomChar ::
    (writeRow CSV_FIELDNAMES ++ (pages.map (fun p => writeRow (pageRow p))).flatten))

/-! ## app/services/storage.py -/

/-- `JSONStorage.MAX_AUDIT_RECORDS`. -/
def MAX_AUDIT_RECORDS : Nat := 10000

/-- `JSONStorage.MAX_PAGES`. -/
def MAX_PAGES : Nat := 50000

/-- A `StorageException`. -/
structure StorageError where
  message : Str
  deriving DecidableEq, Repr

/-- Outcome of `json.loads` plus the `isinstance(data, list)` shape check:
the JSON library is an external collaborator, so the read path is modelled
over an arbitrary decoder result. -/
inductive LoadResult (α : Type) where
  | fail
  | nonList
  | list (records : List α)

/-- `JSONStorage._read_json`: `[]` for an absent or empty file, an error
for an oversized file, undecodable content, or content that is not a list;
`loads` is the `json.loads` collaborator. -/
def read_json {α : Type} (fileExists : Bool) (fileSize : Nat) (content : Str)
    (loads : Str → LoadResult α) : Except StorageError (List α) :=
  if ¬ fileExists then .ok []
  else if fileSize = 0 then .ok []
  else if fileSize > 100 * 1024 * 1024 then .error ⟨S "File too large"⟩
  else if pyStrip content = [] then .ok []
  else
    match loads content with
    | .fail => .error ⟨S "Invalid JSON"⟩
    | .nonList => .error ⟨S "Invalid JSON structure: expected list"⟩
    | .list d => .ok d

/-- `JSONStorage.save_pages` over the page collection state: an atomic full
replacement, guarded by the `MAX_PAGES` capacity check of `_write_json`. -/
def save_pages (pages : List PageSchema) : Except StorageError (List PageSchema) :=
  if pages.length > MAX_PAGES then .error ⟨S "Too many pages"⟩ else .ok pages

/-- `JSONStorage.append_audit_log` over the audit collection state: append
one entry, then rotate so at most `MAX_AUDIT_RECORDS` remain (oldest first). -/
def append_audit_log (logs : List AuditLogSchema) (entry : AuditLogSchema) :
    List AuditLogSchema :=
  let logs2 := logs ++ [entry]
  if logs2.length > MAX_AUDIT_RECORDS then
    logs2.drop (logs2.length - MAX_AUDIT_RECORDS)
  else logs2

/-- Python `data[-limit:]` for a natural `limit` (`[-0:]` is the whole list). -/
def pyTakeLast {α : Type} (n : Nat) (l : List α) : List α :=
  if n = 0 then l else l.drop (l.length - n)

/-- The `if slug:` filter of `get_audit_logs` (skipped for `None` and for
an empty string, both falsy). -/
def slugFiltered (audit : List AuditLogSchema) (slug : Option Str) :
    List AuditLogSchema :=
  match slug with
  | some s => if s ≠ [] then audit.filter (fun lg => lg.slug == s) else audit
  | none => audit

/-- `JSONStorage.get_audit_logs`: optional slug filter, keep the last
`limit` entries of the filtered collection, newest first. -/
def get_audit_logs (audit : List AuditLogSchema) (limit : Nat)
    (slug : Option Str) : List AuditLogSchema :=
  (pyTakeLast limit (slugFiltered audit slug)).reverse

/-! ## app/services/audit.py -/

/-- `AuditService.log_change`: build the audit entry that gets appended
(id generation and request context are passed in by the caller model). -/
def log_change (slug : Str) (old_page : Option PageSchema) (new_page : PageSchema)
    (username : Str) (client_ip : Option Str) (user_agent : Str)
    (audit_id : Str) (now : Nat) : AuditLogSchema :=
  { id := audit_id
    slug := slug
    old_title := match old_page with | some p => p.title | none => none
    old_meta_description := match old_page with | some p => p.meta_description | none => none
    new_title := new_page.title
    new_meta_description := new_page.meta_description
    changed_by := username
    changed_at := now
    ip_address := client_ip
    user_agent := user_agent }

/-- The `if username:` filter of `get_recent_logs` (skipped for `None` and
for an empty string, both falsy). -/
def userFiltered (logs : List AuditLogSchema) (username : Option Str) :
    List AuditLogSchema :=
  match username with
  | some u => if u ≠ [] then logs.filter (fun lg => lg.changed_by == u) else logs
  | none => logs

/-- `AuditService.get_recent_logs`: fetch `limit * 2` slug-filtered entries
from the store, then filter by username and truncate to `limit`. -/
def get_recent_logs (audit : List AuditLogSchema) (limit : Nat)
    (username : Option Str) (slug : Option Str) : List AuditLogSchema :=
  (userFiltered (get_audit_logs audit (limit * 2) slug) username).take limit

/-! ## app/api/automation.py, the upload orchestrator -/

/-- Response of the upload route: an early `HTTPException`, or the HTMX
payload carrying success, message, problem list, and the counters. -/
inductive UploadResult where
  | httpError (status : Nat) (detail : Str)
  | htmx (success : Bool) (message : Str) (errors : List Str)
      (processed added updated unchanged : Nat)
  deriving DecidableEq, Repr

/-- The problem list a response surfaces to the caller. -/
def problemsOf : UploadResult → List Str
  | .httpError _ detail => [detail]
  | .htmx _ _ errors _ _ _ _ => errors

/-- The two persisted collections. -/
structure StoreState where
  pages : List PageSchema
  audit : List AuditLogSchema
  deriving DecidableEq, Repr

/-- `{p.slug: p for p in existing_pages}`. -/
def pagesMap (pages : List PageSchema) : List (Str × PageSchema) :=
  dictOfPairs (pages.map (fun p => (p.slug, p)))

/-- The diff-and-log loop of `upload_csv`: returns the added, updated and
unchanged counters and the audit entries logged, in order. A row whose slug
exists with identical title and meta description is only counted; `ids`
supplies the fresh audit id for each `log_change` call. -/
def uploadLoop (exMap : List (Str × PageSchema)) (username : Str)
    (ip : Option Str) (ua : Str) (now : Nat) (ids : Nat → Str) :
    List PageSchema → Nat → Nat × Nat × Nat × List AuditLogSchema
  | [], _ => (0, 0, 0, [])
  | page :: rest, k =>
    match dGet exMap page.slug with
    | some old =>
      if old.title ≠ page.title ∨ old.meta_description ≠ page.meta_description then
        let e := log_change page.slug (some old) page username ip ua (ids k) now
        let r := uploadLoop exMap username ip ua now ids rest (k + 1)
        (r.1, r.2.1 + 1, r.2.2.1, e :: r.2.2.2)
      else
        let r := uploadLoop exMap username ip ua now ids rest k
        (r.1, r.2.1, r.2.2.1 + 1, r.2.2.2)
    | none =>
      let e := log_change page.slug none page username ip ua (ids k) now
      let r := uploadLoop exMap username ip ua now ids rest (k + 1)
      (r.1 + 1, r.2.1, r.2.2.1, e :: r.2.2.2)

/-- The `upload_csv` route: filename and emptiness guards, validation,
parse, diff-and-audit loop, full-collection save; returns the response and
the post-state of the two collections. -/
def upload_csv (st : StoreState) (filename content : Str) (username : Str)
    (ip : Option Str) (ua : Str) (now : Nat) (ids : Nat → Str) :
    UploadResult × StoreState :=
  if filename = [] then (.httpError 400 (S "No file provided"), st)
  else if ¬ endsWithStr (S ".csv") (toLowerStr filename) then
    (.httpError 400 (S "Invalid file type. Only CSV files are allowed."), st)
  else if content = [] then (.httpError 400 (S "Empty file uploaded"), st)
  else
    let v := validate_csv_file content
    if ¬ v.1 then (.htmx false (S "CSV validation failed") v.2 0 0 0 0, st)
    else
      match parse_csv content now with
      | .error e => (.htmx false e.message e.errorsDetail 0 0 0 0, st)
      | .ok newPages =>
        let r := uploadLoop (pagesMap st.pages) username ip ua now ids newPages 0
        let audit2 := r.2.2.2.foldl append_audit_log st.audit
        match save_pages newPages with
        | .error e =>
          (.htmx false e.message [e.message] 0 0 0 0,
           { pages := st.pages, audit := audit2 })
        | .ok ps =>
          (.htmx true (S "Successfully processed") [] newPages.length r.1 r.2.1 r.2.2.1,
           { pages := ps, audit := audit2 })

/-! ## Theorems -/

/-- C5: every append to the audit collection puts the single new entry at
the end, keeps a suffix of the previous entries plus the new one (so no
entry is deleted except by dropping the oldest), and caps the result at
exactly `MAX_AUDIT_RECORDS = 10000` entries whenever the collection would
exceed that capacity (`min` captures both the rotating and the
non-rotating case, and the drop index is `0` when no rotation happens). -/
theorem claim_C5 (logs : List AuditLogSchema) (entry : AuditLogSchema) :
    append_audit_log logs entry
        = (logs ++ [entry]).drop (logs.length + 1 - MAX_AUDIT_RECORDS)
    ∧ (append_audit_log logs entry).length = min (logs.length + 1) MAX_AUDIT_RECORDS
    ∧ (append_audit_log logs entry).getLast? = some entry := by
  have hlen : (logs ++ [entry]).length = logs.length + 1 := by
    simp
  unfold append_audit_log
  by_cases h : (logs ++ [entry]).length > MAX_AUDIT_RECORDS
  · rw [if_pos h]
    have hk : logs.length + 1 - MAX_AUDIT_RECORDS ≤ logs.length := by
      unfold MAX_AUDIT_RECORDS at *
      omega
    refine ⟨by rw [hlen], ?_, ?_⟩
    · rw [List.length_drop, hlen]
      unfold MAX_AUDIT_RECORDS at *
      omega
    · rw [hlen, List.drop_append_of_le_length hk, List.getLast?_concat]
  · rw [if_neg h]
    have hz : logs.length + 1 - MAX_AUDIT_RECORDS = 0 := by
      rw [hlen] at h
      omega
    refine ⟨by rw [hz, List.drop_zero], ?_, List.getLast?_concat _⟩
    rw [hlen] at h ⊢
    omega

/-- C9: reading a collection yields the empty sequence when the backing
file is absent or has empty content (zero size or whitespace only), and a
`StorageException` when the content does not decode as structured data or
decodes to something that is not a list; `loads` is the JSON decoder
collaborator and the size bound is the 100 MB read guard. -/
theorem claim_C9 {α : Type} (fe : Bool) (sz : Nat) (content : Str)
    (loads : Str → LoadResult α) :
    (fe = false → read_json fe sz content loads = .ok [])
    ∧ (sz = 0 → read_json fe sz content loads = .ok [])
    ∧ (sz ≤ 100 * 1024 * 1024 → pyStrip content = [] →
        read_json fe sz content loads = .ok [])
    ∧ (fe = true → sz ≠ 0 → sz ≤ 100 * 1024 * 1024 → pyStrip content ≠ [] →
        loads content = .fail →
        read_json fe sz content loads = .error ⟨S "Invalid JSON"⟩)
    ∧ (fe = true → sz ≠ 0 → sz ≤ 100 * 1024 * 1024 → pyStrip content ≠ [] →
        loads content = .nonList →
        read_json fe sz content loads = .error ⟨S "Invalid JSON structure: expected list"⟩) := by
  refine ⟨?_, ?_, ?_, ?_, ?_⟩ <;> unfold read_json
  · intro h
    simp [h]
  · intro h
    by_cases hf : fe <;> simp [h, hf]
  · intro hsz hstrip
    by_cases hf : fe
    · by_cases h0 : sz = 0
      · simp [hf, h0]
      · have : ¬ sz > 100 * 1024 * 1024 := by omega
        simp [hf, h0, this, hstrip]
    · simp [hf]
  · intro hf h0 hsz hstrip hl
    have : ¬ sz > 100 * 1024 * 1024 := by omega
    simp [hf, h0, this, hstrip, hl]
  · intro hf h0 hsz hstrip hl
    have : ¬ sz > 100 * 1024 * 1024 := by omega
    simp [hf, h0, this, hstrip, hl]

/-- C9 witness: the theorem applied at concrete inputs — an absent file, a
zero-size file, whitespace content, a decoder failure and a non-list
decode, each with the hypotheses discharged by computation. -/
theorem claim_C9_witness :
    read_json (α := Nat) false 3 (S "x") (fun _ => .fail) = .ok []
    ∧ read_json (α := Nat) true 0 (S "") (fun _ => .fail) = .ok []
    ∧ read_json (α := Nat) true 2 (S "  ") (fun _ => .list [7]) = .ok []
    ∧ read_json (α := Nat) true 3 (S "zzz") (fun _ => .fail) = .error ⟨S "Invalid JSON"⟩
    ∧ read_json (α := Nat) true 3 (S "123") (fun _ => .nonList)
        = .error ⟨S "Invalid JSON structure: expected list"⟩ :=
  ⟨(claim_C9 false 3 (S "x") (fun _ => .fail)).1 rfl,
   (claim_C9 true 0 (S "") (fun _ => .fail)).2.1 rfl,
   (claim_C9 true 2 (S "  ") (fun _ => .list [7])).2.2.1 (by decide) (by decide),
   (claim_C9 true 3 (S "zzz") (fun _ => .fail)).2.2.2.1 rfl (by decide) (by decide)
     (by decide) rfl,
   (claim_C9 true 3 (S "123") (fun _ => .nonList)).2.2.2.2 rfl (by decide) (by decide)
     (by decide) rfl⟩

/-- The slug filter of the store is a sublist selection. -/
theorem slugFiltered_sublist (audit : List AuditLogSchema) (slug : Option Str) :
    List.Sublist (slugFiltered audit slug) audit := by
  cases slug with
  | none => exact List.Sublist.refl _
  | some s =>
    by_cases h : s ≠ []
    · simp only [slugFiltered, if_pos h]
      exact List.filter_sublist _
    · simp only [slugFiltered, if_neg h]
      exact List.Sublist.refl _

/-- The username filter of the audit service is a sublist selection. -/
theorem userFiltered_sublist (logs : List AuditLogSchema) (username : Option Str) :
    List.Sublist (userFiltered logs username) logs := by
  cases username with
  | none => exact List.Sublist.refl _
  | some u =>
    by_cases h : u ≠ []
    · simp only [userFiltered, if_pos h]
      exact List.filter_sublist _
    · simp only [userFiltered, if_neg h]
      exact List.Sublist.refl _

/-- Keeping the last `n` elements is a sublist selection. -/
theorem pyTakeLast_sublist {α : Type} (n : Nat) (l : List α) :
    List.Sublist (pyTakeLast n l) l := by
  unfold pyTakeLast
  by_cases h : n = 0
  · rw [if_pos h]
  · rw [if_neg h]
    exact List.drop_sublist _ _

/-- The result of `get_recent_logs` is a sublist of the reversed collection. -/
theorem get_recent_logs_sublist (audit : List AuditLogSchema) (limit : Nat)
    (username slug : Option Str) :
    List.Sublist (get_recent_logs audit limit username slug) audit.reverse := by
  unfold get_recent_logs get_audit_logs
  exact (List.take_sublist _ _).trans ((userFiltered_sublist _ _).trans
    ((pyTakeLast_sublist _ _).trans (slugFiltered_sublist audit slug)).reverse)

/-- C6 counterexample: the claim fails as stated. With an audit collection
of three entries for slug `/s` — the oldest by user `A`, the two newest by
user `B` — the query `recent(limit := 1, identity := A, slug := /s)`
returns the empty list even though the oldest entry matches both filters:
the identity filter is applied only inside the most recent `2 * limit`
slug-matching entries, so a matching entry is omitted although fewer than
`limit` entries are returned. -/
theorem claim_C6_counterexample :
    get_recent_logs
      [⟨S "a1", S "/s", none, none, some (S "t1"), none, S "A", 1, none, S "ua"⟩,
       ⟨S "a2", S "/s", none, none, some (S "t2"), none, S "B", 2, none, S "ua"⟩,
       ⟨S "a3", S "/s", none, none, some (S "t3"), none, S "B", 3, none, S "ua"⟩]
      1 (some (S "A")) (some (S "/s")) = []
    ∧ (⟨S "a1", S "/s", none, none, some (S "t1"), none, S "A", 1, none, S "ua"⟩
        : AuditLogSchema) ∈
      [⟨S "a1", S "/s", none, none, some (S "t1"), none, S "A", 1, none, S "ua"⟩,
       ⟨S "a2", S "/s", none, none, some (S "t2"), none, S "B", 2, none, S "ua"⟩,
       ⟨S "a3", S "/s", none, none, some (S "t3"), none, S "B", 3, none, S "ua"⟩]
    ∧ (AuditLogSchema.changed_by
        ⟨S "a1", S "/s", none, none, some (S "t1"), none, S "A", 1, none, S "ua"⟩
        = S "A")
    ∧ (AuditLogSchema.slug
        ⟨S "a1", S "/s", none, none, some (S "t1"), none, S "A", 1, none, S "ua"⟩
        = S "/s") := by
  refine ⟨by decide, by decide, by decide, by decide⟩

/-- C6 as amended: `recent(limit, identity?, slug?)` returns a sublist of
the reversed audit collection (so entries come from the collection in
most-recent-first order), containing only entries that satisfy every
supplied non-empty filter, with at most `limit` entries; completeness for
under-full results holds when no identity filter is supplied (the slug
filter is applied to the full collection before the recency cut), but an
identity filter is applied only within the window kept by the store, so
matching entries may be omitted (see the counterexample). -/
theorem claim_C6 (audit : List AuditLogSchema) (limit : Nat)
    (username slug : Option Str) :
    List.Sublist (get_recent_logs audit limit username slug) audit.reverse
    ∧ (get_recent_logs audit limit username slug).length ≤ limit
    ∧ (∀ s, slug = some s → s ≠ [] →
        ∀ x ∈ get_recent_logs audit limit username slug, x.slug = s)
    ∧ (∀ u, username = some u → u ≠ [] →
        ∀ x ∈ get_recent_logs audit limit username slug, x.changed_by = u)
    ∧ (username = none → (get_recent_logs audit limit username slug).length < limit →
        ∀ x ∈ slugFiltered audit slug, x ∈ get_recent_logs audit limit username slug) := by
  refine ⟨get_recent_logs_sublist audit limit username slug, ?_, ?_, ?_, ?_⟩
  · unfold get_recent_logs
    calc _ ≤ min limit _ := Nat.le_of_eq (List.length_take _ _)
      _ ≤ limit := Nat.min_le_left _ _
  · intro s hs hne x hx
    have hx2 : x ∈ get_audit_logs audit (limit * 2) slug :=
      (userFiltered_sublist _ _).subset ((List.take_sublist _ _).subset hx)
    have hmem : x ∈ slugFiltered audit slug := by
      unfold get_audit_logs at hx2
      exact (pyTakeLast_sublist _ _).subset (List.mem_reverse.mp hx2)
    rw [hs] at hmem
    simp only [slugFiltered, if_pos hne] at hmem
    exact eq_of_beq (List.mem_filter.mp hmem).2
  · intro u hu hne x hx
    unfold get_recent_logs at hx
    rw [hu] at hx
    simp only [userFiltered, if_pos hne] at hx
    exact eq_of_beq (List.mem_filter.mp ((List.take_sublist _ _).subset hx)).2
  · intro hu hlen x hx
    subst hu
    unfold get_recent_logs get_audit_logs userFiltered at hlen ⊢
    set D := slugFiltered audit slug with hD
    rw [List.length_take, List.length_reverse] at hlen
    have hTlen : (pyTakeLast (limit * 2) D).length < limit := by omega
    have hTD : pyTakeLast (limit * 2) D = D := by
      unfold pyTakeLast
      by_cases h0 : limit * 2 = 0
      · rw [if_pos h0]
      · rw [if_neg h0]
        have hdl := List.length_drop (D.length - limit * 2) D
        unfold pyTakeLast at hTlen
        rw [if_neg h0, hdl] at hTlen
        have : D.length - limit * 2 = 0 := by omega
        rw [this, List.drop_zero]
    rw [hTD] at hTlen ⊢
    rw [List.take_of_length_le (by rw [List.length_reverse]; omega)]
    exact List.mem_reverse.mpr hx

/-- C6 witness: the amended theorem applied to a concrete three-entry
collection — the slug filter conjunct at a non-empty slug, and the
no-identity completeness conjunct at a limit larger than the collection. -/
theorem claim_C6_witness :
    (∀ x ∈ get_recent_logs
        [⟨S "a1", S "/s", none, none, some (S "t1"), none, S "A", 1, none, S "ua"⟩,
         ⟨S "b1", S "/t", none, none, some (S "t2"), none, S "B", 2, none, S "ua"⟩]
        2 none (some (S "/s")), x.slug = S "/s")
    ∧ (∀ x ∈ slugFiltered
        [⟨S "a1", S "/s", none, none, some (S "t1"), none, S "A", 1, none, S "ua"⟩,
         ⟨S "b1", S "/t", none, none, some (S "t2"), none, S "B", 2, none, S "ua"⟩]
        (some (S "/s")),
       x ∈ get_recent_logs
        [⟨S "a1", S "/s", none, none, some (S "t1"), none, S "A", 1, none, S "ua"⟩,
         ⟨S "b1", S "/t", none, none, some (S "t2"), none, S "B", 2, none, S "ua"⟩]
        5 none (some (S "/s"))) :=
  ⟨(claim_C6 _ 2 none (some (S "/s"))).2.2.1 (S "/s") rfl (by decide),
   (claim_C6 _ 5 none (some (S "/s"))).2.2.2.2 rfl (by decide)⟩

/-- A successfully constructed page carries the timestamp it was given. -/
theorem mkPageSchema_updated_at {s : Str} {t m : Option Str} {ts : Nat}
    {p : PageSchema} (h : mkPageSchema s t m ts = .ok p) : p.updated_at = ts := by
  unfold mkPageSchema at h
  repeat' split at h
  all_goals simp_all
  all_goals rw [← h]

/-- Every page the parse loop produces carries the parse timestamp. -/
theorem pLoop_updated_at (header : List Str) (now : Nat) :
    ∀ (rows : List (List Str)) (n : Nat) (seen : List Str) (p : PageSchema),
      p ∈ (pLoop header now rows n seen).1 → p.updated_at = now := by
  intro rows
  induction rows with
  | nil =>
    intro n seen p hp
    simp [pLoop] at hp
  | cons row rest ih =>
    intro n seen p hp
    simp only [pLoop] at hp
    split at hp
    · exact ih _ _ p hp
    · split at hp
      · exact ih _ _ p hp
      · split at hp
        · rename_i page hpage
          rcases List.mem_cons.mp hp with h | h
          · rw [h]
            exact mkPageSchema_updated_at hpage
          · exact ih _ _ p h
        · exact ih _ _ p hp

/-- Rows that agree on the three consumed keys (`slug`, `title`,
`meta_description`) of the normalised row dict. -/
def sameSTM (header : List Str) (r r2 : List Str) : Prop :=
  dGet (normParse header r) (S "slug") = dGet (normParse header r2) (S "slug")
  ∧ dGet (normParse header r) (S "title") = dGet (normParse header r2) (S "title")
  ∧ dGet (normParse header r) (S "meta_description")
      = dGet (normParse header r2) (S "meta_description")

/-- The slug key of a parse row only depends on the `slug` value. -/
theorem pSlugKey_congr {header r r2 : List Str} (h : sameSTM header r r2) :
    pSlugKey header r = pSlugKey header r2 := by
  unfold pSlugKey
  rw [h.1]

/-- The constructed page only depends on the three consumed values. -/
theorem pRowPage_congr {header r r2 : List Str} (now : Nat)
    (h : sameSTM header r r2) : pRowPage header r now = pRowPage header r2 now := by
  simp only [pRowPage]
  rw [h.1, h.2.1, h.2.2]

/-- The whole parse loop only depends on the three consumed values of each
row: in particular the `updated_at` column values never influence it. -/
theorem pLoop_congr (header : List Str) (now : Nat) :
    ∀ (rows rows2 : List (List Str)), List.Forall₂ (sameSTM header) rows rows2 →
      ∀ (n : Nat) (seen : List Str),
        pLoop header now rows n seen = pLoop header now rows2 n seen := by
  intro rows rows2 h
  induction h with
  | nil =>
    intro n seen
    rfl
  | @cons a b as bs hab _ ih =>
    intro n seen
    simp only [pLoop]
    rw [pSlugKey_congr hab, pRowPage_congr now hab]
    cases pSlugKey header b with
    | none => rw [ih]
    | some key =>
      by_cases hk : key ∈ seen
      · simp only [if_pos hk]
        exact ih _ _
      · simp only [if_neg hk]
        cases pRowPage header b now with
        | ok page => rw [ih]
        | error msg => rw [ih]

/-- C10: every record an accepted parse yields has `updated_at` equal to
the parse-time timestamp; the values of an `updated_at` column in the
uploaded CSV never influence the parse result (rows that agree on the
`slug`, `title` and `meta_description` values are processed identically);
and `updated_at` is a recognised optional header during validation — a
file carrying it validates with no warning at all. -/
theorem claim_C10 :
    (∀ (content : Str) (now : Nat) (pages : List PageSchema),
      parse_csv content now = .ok pages → ∀ p ∈ pages, p.updated_at = now)
    ∧ (∀ (header : List Str) (now : Nat) (rows rows2 : List (List Str)),
        List.Forall₂ (sameSTM header) rows rows2 →
        ∀ (n : Nat) (seen : List Str),
          pLoop header now rows n seen = pLoop header now rows2 n seen)
    ∧ S "updated_at" ∈ OPTIONAL_HEADERS
    ∧ validate_csv_file (S "slug,title,meta_description,updated_at\n/a,T,M,2020\n")
        = (true, []) := by
  refine ⟨?_, fun header now => pLoop_congr header now, by decide, by decide⟩
  intro content now pages h p hp
  unfold parse_csv at h
  split at h
  · simp at h
  · rename_i header rest hrows
    unfold parseFinish at h
    split at h
    · simp at h
    · split at h
      · simp at h
      · have hx := Except.ok.inj h
        exact pLoop_updated_at header now _ _ _ p (by rw [hx]; exact hp)

/-- C10 witness: the theorem applied at concrete inputs — a parsed page
whose timestamp equals the parse time, and two concrete rows differing
only in the `updated_at` column yielding identical parse-loop results. -/
theorem claim_C10_witness :
    (∀ p ∈ [(⟨S "/a", some (S "T"), some (S "M"), 7⟩ : PageSchema)], p.updated_at = 7)
    ∧ pLoop CSV_FIELDNAMES 9 [[S "/a", S "T", S "M", S "111"]] 0 []
        = pLoop CSV_FIELDNAMES 9 [[S "/a", S "T", S "M", S "222"]] 0 [] :=
  ⟨claim_C10.1 (S "slug,title,meta_description\n/a,T,M\n") 7
      [⟨S "/a", some (S "T"), some (S "M"), 7⟩] (by decide),
   claim_C10.2.1 CSV_FIELDNAMES 9 _ _
      (List.Forall₂.cons (by refine ⟨?_, ?_, ?_⟩ <;> decide) List.Forall₂.nil) 0 []⟩

/-! ## Reader/writer round trip for the csv model -/

/-- Step: ordinary character inside an unquoted field. -/
theorem csvGo0_char {c : Char} (t fa : Str) (ra : List Str)
    (h1 : c ≠ '"') (h2 : c ≠ ',') (h3 : c ≠ '\n') :
    csvGo (c :: t) 0 fa ra = csvGo t 0 (c :: fa) ra := by
  simp [csvGo, h1, h2, h3]

/-- Step: delimiter ends the current field. -/
theorem csvGo0_comma (t fa : Str) (ra : List Str) :
    csvGo (',' :: t) 0 fa ra = csvGo t 0 [] (fa.reverse :: ra) := by
  simp [csvGo]

/-- Step: line terminator emits the current record. -/
theorem csvGo0_nl (t fa : Str) (ra : List Str) :
    csvGo ('\n' :: t) 0 fa ra = (fa.reverse :: ra).reverse :: csvGo t 3 [] [] := by
  simp [csvGo]

/-- Step: a quote at the start of a field opens a quoted field. -/
theorem csvGo0_quote (t : Str) (ra : List Str) :
    csvGo ('"' :: t) 0 [] ra = csvGo t 1 [] ra := by
  simp [csvGo]

/-- Step: a quote inside a quoted field moves to the after-quote state. -/
theorem csvGo1_quote (t fa : Str) (ra : List Str) :
    csvGo ('"' :: t) 1 fa ra = csvGo t 2 fa ra := by
  simp [csvGo]

/-- Step: any other character inside a quoted field is kept verbatim. -/
theorem csvGo1_char {c : Char} (t fa : Str) (ra : List Str) (h : c ≠ '"') :
    csvGo (c :: t) 1 fa ra = csvGo t 1 (c :: fa) ra := by
  simp [csvGo, h]

/-- Step: a second quote right after a quote is an escaped quote. -/
theorem csvGo2_quote (t fa : Str) (ra : List Str) :
    csvGo ('"' :: t) 2 fa ra = csvGo t 1 ('"' :: fa) ra := by
  simp [csvGo]

/-- Step: a delimiter after the closing quote ends the field. -/
theorem csvGo2_comma (t fa : Str) (ra : List Str) :
    csvGo (',' :: t) 2 fa ra = csvGo t 0 [] (fa.reverse :: ra) := by
  simp [csvGo]

/-- Step: a line terminator after the closing quote emits the record. -/
theorem csvGo2_nl (t fa : Str) (ra : List Str) :
    csvGo ('\n' :: t) 2 fa ra = (fa.reverse :: ra).reverse :: csvGo t 3 [] [] := by
  simp [csvGo]

/-- Step: an ordinary character at record start begins an unquoted field. -/
theorem csvGo3_char {c : Char} (t : Str) (h1 : c ≠ '"') (h2 : c ≠ ',') (h3 : c ≠ '\n') :
    csvGo (c :: t) 3 [] [] = csvGo t 0 [c] [] := by
  simp [csvGo, h1, h2, h3]

/-- Step: a delimiter at record start completes an empty first field. -/
theorem csvGo3_comma (t : Str) :
    csvGo (',' :: t) 3 [] [] = csvGo t 0 [] [[]] := by
  simp [csvGo]

/-- Step: a quote at record start opens a quoted first field. -/
theorem csvGo3_quote (t : Str) :
    csvGo ('"' :: t) 3 [] [] = csvGo t 1 [] [] := by
  simp [csvGo]

/-- A run of plain characters is consumed verbatim in the unquoted state. -/
theorem csvGo_plain (f : Str) : ∀ (t fa : Str) (ra : List Str),
    needsQuote f = false →
    csvGo (f ++ t) 0 fa ra = csvGo t 0 (f.reverse ++ fa) ra := by
  induction f with
  | nil =>
    intro t fa ra _
    simp
  | cons c f ih =>
    intro t fa ra h
    simp only [needsQuote, List.any_cons, Bool.or_eq_false_iff] at h
    obtain ⟨hc, hf⟩ := h
    have hc2 : ¬(c = ',' ∨ c = '"' ∨ c = '\n' ∨ c = '\r') := by simpa using hc
    push_neg at hc2
    obtain ⟨h1, h2, h3, _⟩ := hc2
    rw [List.cons_append, csvGo0_char _ _ _ h2 h1 h3, ih _ _ _ hf]
    simp [List.append_assoc]

/-- The escaped body of a quoted field is consumed verbatim up to the
closing quote, landing in the after-quote state. -/
theorem csvGo_quoted (f : Str) : ∀ (t fa : Str) (ra : List Str),
    csvGo (escField f ++ '"' :: t) 1 fa ra = csvGo t 2 (f.reverse ++ fa) ra := by
  induction f with
  | nil =>
    intro t fa ra
    simp [escField, csvGo1_quote]
  | cons c f ih =>
    intro t fa ra
    by_cases hc : c = '"'
    · subst hc
      have he : escField ('"' :: f) = '"' :: '"' :: escField f := by
        simp [escField]
      rw [he, List.cons_append, List.cons_append, csvGo1_quote, csvGo2_quote,
        ih t ('"' :: fa) ra]
      simp [List.append_assoc]
    · have he : escField (c :: f) = c :: escField f := by
        simp [escField, hc]
      rw [he, List.cons_append, csvGo1_char _ _ _ hc, ih t (c :: fa) ra]
      simp [List.append_assoc]

/-- A written field followed by a delimiter is read back exactly, starting
at a fresh field in the unquoted state. -/
theorem csvGo_field_comma (f t : Str) (ra : List Str) :
    csvGo (writeField f ++ ',' :: t) 0 [] ra = csvGo t 0 [] (f :: ra) := by
  unfold writeField
  by_cases hq : needsQuote f
  · rw [if_pos hq]
    rw [List.cons_append, List.append_assoc]
    simp only [List.singleton_append]
    rw [csvGo0_quote, csvGo_quoted, csvGo2_comma]
    simp
  · rw [if_neg hq]
    rw [csvGo_plain f _ _ _ (by simpa using hq), csvGo0_comma]
    simp

/-- A written field followed by a line terminator is read back exactly and
the record is emitted. -/
theorem csvGo_field_nl (f t : Str) (ra : List Str) :
    csvGo (writeField f ++ '\n' :: t) 0 [] ra
      = ((f :: ra).reverse) :: csvGo t 3 [] [] := by
  unfold writeField
  by_cases hq : needsQuote f
  · rw [if_pos hq]
    rw [List.cons_append, List.append_assoc]
    simp only [List.singleton_append]
    rw [csvGo0_quote, csvGo_quoted, csvGo2_nl]
    simp
  · rw [if_neg hq]
    rw [csvGo_plain f _ _ _ (by simpa using hq), csvGo0_nl]
    simp

/-- A written first field followed by a delimiter, from record start. -/
theorem csvGo_field3_comma (f t : Str) :
    csvGo (writeField f ++ ',' :: t) 3 [] [] = csvGo t 0 [] [f] := by
  unfold writeField
  by_cases hq : needsQuote f
  · rw [if_pos hq]
    rw [List.cons_append, List.append_assoc]
    simp only [List.singleton_append]
    rw [csvGo3_quote, csvGo_quoted, csvGo2_comma]
    simp
  · rw [if_neg hq]
    cases f with
    | nil => simp [csvGo3_comma]
    | cons c f =>
      have h := hq
      simp only [needsQuote, List.any_cons, Bool.or_eq_false_iff,
        Bool.not_eq_true] at h
      obtain ⟨hc, hf⟩ := h
      have hc2 : ¬(c = ',' ∨ c = '"' ∨ c = '\n' ∨ c = '\r') := by simpa using hc
      push_neg at hc2
      obtain ⟨h1, h2, h3, _⟩ := hc2
      rw [List.cons_append, csvGo3_char _ h2 h1 h3,
        csvGo_plain f _ _ _ hf, csvGo0_comma]
      simp

/-- A written nonempty first field followed by a line terminator, from
record start (an empty single field would render as a blank line, which
the reader treats as an empty record instead). -/
theorem csvGo_field3_nl (f t : Str) (hf : f ≠ []) :
    csvGo (writeField f ++ '\n' :: t) 3 [] [] = [f] :: csvGo t 3 [] [] := by
  unfold writeField
  by_cases hq : needsQuote f
  · rw [if_pos hq]
    rw [List.cons_append, List.append_assoc]
    simp only [List.singleton_append]
    rw [csvGo3_quote, csvGo_quoted, csvGo2_nl]
    simp
  · rw [if_neg hq]
    cases f with
    | nil => exact absurd rfl hf
    | cons c f =>
      have h := hq
      simp only [needsQuote, List.any_cons, Bool.or_eq_false_iff,
        Bool.not_eq_true] at h
      obtain ⟨hc, hf2⟩ := h
      have hc2 : ¬(c = ',' ∨ c = '"' ∨ c = '\n' ∨ c = '\r') := by simpa using hc
      push_neg at hc2
      obtain ⟨h1, h2, h3, _⟩ := hc2
      rw [List.cons_append, csvGo3_char _ h2 h1 h3,
        csvGo_plain f _ _ _ hf2, csvGo0_nl]
      simp

/-- The remaining fields of a record are read back exactly. -/
theorem csvGo_fields (fs : List Str) : ∀ (t : Str) (ra : List Str), fs ≠ [] →
    csvGo (joinComma (fs.map writeField) ++ '\n' :: t) 0 [] ra
      = (ra.reverse ++ fs) :: csvGo t 3 [] [] := by
  induction fs with
  | nil =>
    intro t ra h
    exact absurd rfl h
  | cons f fs ih =>
    intro t ra _
    cases fs with
    | nil =>
      simp only [List.map_cons, List.map_nil, joinComma]
      rw [csvGo_field_nl]
      simp
    | cons g gs =>
      simp only [List.map_cons, joinComma, List.append_assoc, List.cons_append,
        List.nil_append]
      have := csvGo_field_comma f
        (joinComma (writeField g :: gs.map writeField) ++ '\n' :: t) ra
      rw [this]
      have := ih t (f :: ra) (by simp)
      simp only [List.map_cons] at this
      rw [this]
      simp

/-- A written record is read back exactly from record start. The record
must be a real record: nonempty, and not the single empty field whose
rendering is a blank line. -/
theorem csvGo_row (fs : List Str) (t : Str) (h1 : fs ≠ []) (h2 : fs ≠ [[]]) :
    csvGo (writeRow fs ++ t) 3 [] [] = fs :: csvGo t 3 [] [] := by
  cases fs with
  | nil => exact absurd rfl h1
  | cons f fs =>
    cases fs with
    | nil =>
      have hf : f ≠ [] := by
        intro h
        exact h2 (by rw [h])
      unfold writeRow
      simp only [List.map_cons, List.map_nil, joinComma, List.append_assoc,
        List.cons_append, List.nil_append]
      exact csvGo_field3_nl f t hf
    | cons g gs =>
      unfold writeRow
      simp only [List.map_cons, joinComma, List.append_assoc, List.cons_append,
        List.nil_append]
      rw [csvGo_field3_comma]
      have := csvGo_fields (g :: gs) t [f] (by simp)
      simp only [List.map_cons] at this
      rw [this]
      simp

/-- Round trip: a written sequence of real records is read back exactly. -/
theorem csvRows_writeRows (rows : List (List Str))
    (h : ∀ r ∈ rows, r ≠ [] ∧ r ≠ [[]]) :
    csvRows ((rows.map writeRow).flatten) = rows := by
  induction rows with
  | nil => rfl
  | cons r rows ih =>
    unfold csvRows
    simp only [List.map_cons, List.flatten_cons]
    rw [csvGo_row r _ (h r (by simp)).1 (h r (by simp)).2]
    have := ih (fun x hx => h x (by simp [hx]))
    unfold csvRows at this
    rw [this]

/-- Normalising a four-field row against the canonical export header. -/
theorem normParse_canon (a b c d : Str) :
    normParse CSV_FIELDNAMES [a, b, c, d] =
      [(S "slug", stripVal (some a)), (S "title", stripVal (some b)),
       (S "meta_description", stripVal (some c)), (S "updated_at", stripVal (some d))] := rfl

/-- Looking up `slug` in a canonical normalised row. -/
theorem dGet_canon_slug (v1 v2 v3 v4 : Option Str) :
    dGet [(S "slug", v1), (S "title", v2), (S "meta_description", v3),
      (S "updated_at", v4)] (S "slug") = some v1 := rfl

/-- Looking up `title` in a canonical normalised row. -/
theorem dGet_canon_title (v1 v2 v3 v4 : Option Str) :
    dGet [(S "slug", v1), (S "title", v2), (S "meta_description", v3),
      (S "updated_at", v4)] (S "title") = some v2 := rfl

/-- Looking up `meta_description` in a canonical normalised row. -/
theorem dGet_canon_meta (v1 v2 v3 v4 : Option Str) :
    dGet [(S "slug", v1), (S "title", v2), (S "meta_description", v3),
      (S "updated_at", v4)] (S "meta_description") = some v3 := rfl

/-- An optional field in normalised exportable form: absent, or nonempty
with no surrounding whitespace and within the length bound. -/
def optOk (v : Option Str) (k : Nat) : Prop :=
  match v with
  | none => True
  | some t => t ≠ [] ∧ pyStrip t = t ∧ t.length ≤ k

/-- The normal-form predicate on an optional field is decidable. -/
instance (v : Option Str) (k : Nat) : Decidable (optOk v k) :=
  match v with
  | none => .isTrue trivial
  | some t => inferInstanceAs (Decidable (t ≠ [] ∧ pyStrip t = t ∧ t.length ≤ k))

/-- A page record in the normalised form the schema validator guarantees:
the slug is nonempty, bounded, begins with `/`, free of `..` and `//`, and
fixed under stripping and lowercasing; the optional fields are absent or
normalised nonempty strings within the schema bounds. -/
def PageOk (p : PageSchema) : Prop :=
  p.slug ≠ [] ∧ p.slug.length ≤ 500
  ∧ startsWithStr (S "/") p.slug = true
  ∧ hasSub (S "..") p.slug = false ∧ hasSub (S "//") p.slug = false
  ∧ pyStrip p.slug = p.slug ∧ toLowerStr p.slug = p.slug
  ∧ optOk p.title 200 ∧ optOk p.meta_description 300

/-- The page normal-form predicate is decidable. -/
instance (p : PageSchema) : Decidable (PageOk p) :=
  inferInstanceAs (Decidable (_ ∧ _ ∧ _ ∧ _ ∧ _ ∧ _ ∧ _ ∧ _ ∧ _))

/-- Writing an optional field and re-reading it through the parse
normalisation gives the field back. -/
theorem pyOrNone_opt (v : Option Str) (k : Nat) (h : optOk v k) :
    pyOrNone (some (stripVal (some (v.getD [])))) = v := by
  cases v with
  | none => rfl
  | some t =>
    obtain ⟨ht1, ht2, _⟩ := h
    simp [stripVal, pyOrNone, if_neg ht1, ht2]

/-- Schema construction succeeds on a record satisfying the invariants. -/
theorem mkPageSchema_ok (a : Str) (t m : Option Str) (now : Nat)
    (h1 : a ≠ []) (h2 : a.length ≤ 500) (h3 : startsWithStr (S "/") a = true)
    (h4 : hasSub (S "..") a = false) (h5 : hasSub (S "//") a = false)
    (ht : ∀ s, t = some s → s.length ≤ 200)
    (hm : ∀ s, m = some s → s.length ≤ 300) :
    mkPageSchema a t m now = .ok ⟨toLowerStr (pyStrip a), t, m, now⟩ := by
  unfold mkPageSchema
  rw [if_neg (by simp [Nat.lt_one_iff, List.length_eq_zero, h1])]
  rw [if_neg (by omega)]
  rw [if_neg (by simp [h3])]
  rw [if_neg (by simp [h4, h5])]
  cases t with
  | none =>
    cases m with
    | none => rfl
    | some s =>
      dsimp only
      rw [if_neg (by have := hm s rfl; omega)]
  | some s =>
    dsimp only
    rw [if_neg (by have := ht s rfl; omega)]
    cases m with
    | none => rfl
    | some s2 =>
      dsimp only
      rw [if_neg (by have := hm s2 rfl; omega)]

/-- The slug key computed from a written page row is the page slug. -/
theorem pSlugKey_page (p : PageSchema) (hp : PageOk p) :
    pSlugKey CSV_FIELDNAMES (pageRow p) = some p.slug := by
  obtain ⟨h1, _, _, _, _, h6, h7, _, _⟩ := hp
  simp only [pageRow, pSlugKey, normParse_canon, dGet_canon_slug]
  simp only [stripVal, if_neg h1, h6]
  simp only [if_neg h1, h7, h6]

/-- Parsing a written page row rebuilds the page, at the parse timestamp. -/
theorem pRowPage_page (now : Nat) (p : PageSchema) (hp : PageOk p) :
    pRowPage CSV_FIELDNAMES (pageRow p) now
      = .ok ⟨p.slug, p.title, p.meta_description, now⟩ := by
  obtain ⟨h1, h2, h3, h4, h5, h6, h7, h8, h9⟩ := hp
  simp only [pRowPage, pageRow, normParse_canon, dGet_canon_slug, dGet_canon_title,
    dGet_canon_meta]
  rw [pyOrNone_opt _ 200 h8, pyOrNone_opt _ 300 h9]
  simp only [stripVal, if_neg h1, h6]
  rw [h7, h6, mkPageSchema_ok p.slug p.title p.meta_description now h1 h2 h3 h4 h5
    (fun s hs => by rw [hs] at h8; exact h8.2.2)
    (fun s hs => by rw [hs] at h9; exact h9.2.2)]
  rw [h6, h7]

/-- The parse loop over written rows of normalised pages with fresh,
pairwise distinct slugs rebuilds the page list at the parse timestamp,
with no row errors. -/
theorem pLoop_roundtrip (now : Nat) : ∀ (pages : List PageSchema) (n : Nat)
    (seen : List Str),
    (∀ p ∈ pages, PageOk p) →
    (∀ p ∈ pages, p.slug ∉ seen) →
    (pages.map PageSchema.slug).Nodup →
    pLoop CSV_FIELDNAMES now (pages.map pageRow) n seen
      = (pages.map (fun p => ⟨p.slug, p.title, p.meta_description, now⟩), []) := by
  intro pages
  induction pages with
  | nil =>
    intro n seen _ _ _
    rfl
  | cons p ps ih =>
    intro n seen hok hseen hnodup
    have hp := hok p (by simp)
    rw [List.map_cons, pLoop, pSlugKey_page p hp]
    dsimp only
    rw [if_neg (hseen p (by simp)), pRowPage_page now p hp]
    dsimp only
    have hnd : (∀ x ∈ ps, ¬ x.slug = p.slug) ∧ (List.map PageSchema.slug ps).Nodup := by
      simpa using hnodup
    rw [ih (n + 1) (p.slug :: seen)
      (fun q hq => hok q (by simp [hq]))
      (fun q hq => by
        intro hmem
        rcases List.mem_cons.mp hmem with h | h
        · exact hnd.1 q hq h
        · exact hseen q (by simp [hq]) h)
      hnd.2]
    simp

/-- C3 counterexample: the round-trip law fails as stated. A record whose
title carries surrounding whitespace comes back with the title stripped,
and `updated_at` is regenerated at parse time rather than preserved, so
`parse(serialize(records))` differs from `records` in title and timestamp. -/
theorem claim_C3_counterexample :
    (generate_csv [⟨S "/a", some (S " x "), some (S "m"), 0⟩]).bind
        (fun bytes => parse_csv bytes 5)
      = .ok [⟨S "/a", some (S "x"), some (S "m"), 5⟩]
    ∧ [(⟨S "/a", some (S "x"), some (S "m"), 5⟩ : PageSchema)]
        ≠ [⟨S "/a", some (S " x "), some (S "m"), 0⟩] := by
  exact ⟨by decide, by decide⟩

/-- C3 as amended: for every nonempty record set with pairwise distinct
slugs in which each record is in the normalised form the schema validator
guarantees (slug nonempty, bounded, `/`-prefixed, free of `..` and `//`,
fixed under strip and lowercase) and each optional field is absent or a
nonempty whitespace-trimmed string within the schema bounds, parsing the
serialized bytes yields exactly the records back — same slugs, titles and
meta descriptions in the same order — with every `updated_at` set to the
parse-time timestamp (the serialized timestamp column is not preserved). -/
theorem claim_C3 (pages : List PageSchema) (now : Nat)
    (hok : ∀ p ∈ pages, PageOk p)
    (hnodup : (pages.map PageSchema.slug).Nodup)
    (hne : pages ≠ []) :
    (generate_csv pages).bind (fun bytes => parse_csv bytes now)
      = .ok (pages.map (fun p => ⟨p.slug, p.title, p.meta_description, now⟩)) := by
  unfold generate_csv
  rw [if_neg hne]
  have hb : ∀ (c : Str),
      ((Except.ok (ε := CSVError) c).bind (fun bytes => parse_csv bytes now))
        = parse_csv c now := fun _ => rfl
  rw [hb]
  unfold parse_csv
  have hbom : stripBom (bomChar ::
      (writeRow CSV_FIELDNAMES ++ (pages.map (fun p => writeRow (pageRow p))).flatten))
      = writeRow CSV_FIELDNAMES ++ (pages.map (fun p => writeRow (pageRow p))).flatten := by
    simp [stripBom]
  rw [hbom]
  have hflat : writeRow CSV_FIELDNAMES ++ (pages.map (fun p => writeRow (pageRow p))).flatten
      = ((CSV_FIELDNAMES :: pages.map pageRow).map writeRow).flatten := by
    simp only [List.map_cons, List.flatten_cons, List.map_map]
    rfl
  rw [hflat]
  have hrows : csvRows (((CSV_FIELDNAMES :: pages.map pageRow).map writeRow).flatten)
      = CSV_FIELDNAMES :: pages.map pageRow := by
    apply csvRows_writeRows
    intro r hr
    rcases List.mem_cons.mp hr with h | h
    · rw [h]
      exact ⟨by decide, by decide⟩
    · obtain ⟨p, _, hpr⟩ := List.mem_map.mp h
      rw [← hpr]
      exact ⟨by simp [pageRow], by simp [pageRow]⟩
  rw [hrows]
  show parseFinish (pLoop CSV_FIELDNAMES now
      (dataRows (List.map pageRow pages)) 0 []) = _
  have hfilter : dataRows (pages.map pageRow) = pages.map pageRow := by
    rw [dataRows, List.filter_eq_self]
    intro r hr
    obtain ⟨p, _, hpr⟩ := List.mem_map.mp hr
    rw [← hpr]
    simp [pageRow]
  rw [hfilter]
  rw [pLoop_roundtrip now pages 0 [] hok (by simp) hnodup]
  unfold parseFinish
  rw [if_neg (by simp)]
  rw [if_neg (by simpa using hne)]

/-- C3 witness: the amended theorem applied to a concrete two-record set,
with all normalisation hypotheses discharged by computation. -/
theorem claim_C3_witness :
    (generate_csv [⟨S "/a", some (S "T"), none, 3⟩, ⟨S "/b", none, some (S "M"), 4⟩]).bind
        (fun bytes => parse_csv bytes 9)
      = .ok [⟨S "/a", some (S "T"), none, 9⟩, ⟨S "/b", none, some (S "M"), 9⟩] := by
  have h := claim_C3 [⟨S "/a", some (S "T"), none, 3⟩, ⟨S "/b", none, some (S "M"), 4⟩] 9
    (by intro p hp; fin_cases hp <;> decide)
    (by decide) (by decide)
  simpa using h

/-! ## Soundness of the row validator -/

/-- A singleton-or-empty conditional is empty only when the guard fails. -/
theorem if_singleton_nil {c : Prop} [Decidable c] {x : Str}
    (h : (if c then [x] else []) = []) : ¬ c := by
  by_contra hc
  rw [if_pos hc] at h
  simp at h

/-- A some-or-none conditional yields a value only when the guard holds. -/
theorem if_some_eq_some {α : Type} {c : Prop} [Decidable c] {x e : α}
    (h : (if c then some x else none) = some e) : e = x ∧ c := by
  by_cases hc : c
  · rw [if_pos hc] at h
    exact ⟨(Option.some.inj h).symm, hc⟩
  · rw [if_neg hc] at h
    simp at h

/-- A some-or-none conditional is `none` only when the guard fails. -/
theorem if_some_eq_none {α : Type} {c : Prop} [Decidable c] {x : α}
    (h : (if c then some x else none) = none) : ¬ c := by
  by_contra hc
  rw [if_pos hc] at h
  simp at h

/-- Row-level error messages never carry the warning marker. -/
theorem rowMsg_not_warning (n : Nat) (m : Str) :
    startsWithStr (S "Warning:") (rowMsg n m) = false := by
  simp [rowMsg, S, startsWithStr, List.isPrefixOf]

/-- The stripped value the row validator reads at one key: absent keys
default to the empty string, a `None` value raises. -/
def rowFieldStripped (header row : List Str) (k : Str) : Except Unit Str :=
  (getStrOrRaise (normValidate header row) k).map pyStrip

/-- The lowercased slug key of a validate row, when one exists. -/
def vSlugKey (header row : List Str) : Option Str :=
  match rowFieldStripped header row (S "slug") with
  | .ok s => if s = [] then none else some (toLowerStr s)
  | .error _ => none

/-- A data row that passes every per-row check of `_validate_rows`:
a present, nonempty, well-formed, traversal-free slug; title and meta
description within their bounds; and every present field value within
the maximum field length. -/
def GoodRow (header row : List Str) : Prop :=
  (∃ s, rowFieldStripped header row (S "slug") = .ok s ∧ s ≠ []
      ∧ SLUG_PATTERN s = true ∧ hasSub (S "..") s = false
      ∧ hasSub (S "//") s = false)
  ∧ (∃ t, rowFieldStripped header row (S "title") = .ok t
      ∧ (t ≠ [] → t.length ≤ 200))
  ∧ (∃ m, rowFieldStripped header row (S "meta_description") = .ok m
      ∧ (m ≠ [] → m.length ≤ 300))
  ∧ (∀ kv ∈ normValidate header row, ∀ v, kv.2 = some v → v ≠ [] →
      v.length ≤ MAX_FIELD_LENGTH)

/-- A row whose validation produced no error is a good row; its slug key
is fresh and gets recorded. -/
theorem vRow_ok_nil {header row : List Str} {n : Nat} {seen seen2 : List Str}
    (h : vRow header row n seen = .ok ([], seen2)) :
    GoodRow header row
    ∧ ∃ k, vSlugKey header row = some k ∧ k ∉ seen ∧ seen2 = k :: seen := by
  unfold vRow at h
  cases hs : getStrOrRaise (normValidate header row) (S "slug") with
  | error u =>
    rw [hs] at h
    cases u
    simp at h
  | ok rawSlug =>
    rw [hs] at h
    dsimp only at h
    by_cases hemp : pyStrip rawSlug = []
    · rw [if_pos hemp] at h
      simp at h
    · rw [if_neg hemp] at h
      cases ht : getStrOrRaise (normValidate header row) (S "title") with
      | error u =>
        rw [ht] at h
        cases u
        simp at h
      | ok rawTitle =>
        rw [ht] at h
        dsimp only at h
        cases hm : getStrOrRaise (normValidate header row) (S "meta_description") with
        | error u =>
          rw [hm] at h
          cases u
          simp at h
        | ok rawMeta =>
          rw [hm] at h
          dsimp only at h
          rw [Except.ok.injEq, Prod.mk.injEq] at h
          obtain ⟨herr, hseen2⟩ := h
          simp only [List.append_eq_nil] at herr
          have h1 := herr.1.1.1.1.1
          have h2 := herr.1.1.1.1.2
          have h3 := herr.1.1.1.2
          have h4 := herr.1.1.2
          have h5 := herr.1.2
          have h6 := herr.2
          have hp1 : SLUG_PATTERN (pyStrip rawSlug) = true :=
            not_not.mp (if_singleton_nil h1)
          have hp2 : hasSub (S "..") (pyStrip rawSlug) = false
              ∧ hasSub (S "//") (pyStrip rawSlug) = false := by
            have := if_singleton_nil h2
            push_neg at this
            exact ⟨Bool.not_eq_true _ ▸ this.1, Bool.not_eq_true _ ▸ this.2⟩
          have hp3 : toLowerStr (pyStrip rawSlug) ∉ seen := if_singleton_nil h3
          have hp4 : pyStrip rawTitle ≠ [] → (pyStrip rawTitle).length ≤ 200 := by
            have := if_singleton_nil h4
            intro hne
            by_contra hlen
            exact this ⟨hne, by omega⟩
          have hp5 : pyStrip rawMeta ≠ [] → (pyStrip rawMeta).length ≤ 300 := by
            have := if_singleton_nil h5
            intro hne
            by_contra hlen
            exact this ⟨hne, by omega⟩
          have hp6 : ∀ kv ∈ normValidate header row, ∀ v, kv.2 = some v →
              v ≠ [] → v.length ≤ MAX_FIELD_LENGTH := by
            rw [List.filterMap_eq_nil_iff] at h6
            intro kv hkv v hv hne
            have := h6 kv hkv
            rw [hv] at this
            by_contra hlen
            exact if_some_eq_none this ⟨hne, by omega⟩
          have hseen2v : seen2 = toLowerStr (pyStrip rawSlug) :: seen := by
            rw [if_neg hp3] at hseen2
            exact hseen2.symm
          refine ⟨⟨⟨pyStrip rawSlug, ?_, hemp, hp1, hp2.1, hp2.2⟩,
            ⟨pyStrip rawTitle, ?_, hp4⟩, ⟨pyStrip rawMeta, ?_, hp5⟩, hp6⟩,
            toLowerStr (pyStrip rawSlug), ?_, hp3, hseen2v⟩
          · rw [rowFieldStripped, hs]
            rfl
          · rw [rowFieldStripped, ht]
            rfl
          · rw [rowFieldStripped, hm]
            rfl
          · rw [vSlugKey, rowFieldStripped, hs]
            dsimp only [Except.map]
            rw [if_neg hemp]

/-- No error string the row validator emits carries the warning marker. -/
theorem vRow_errs_not_warning {header row : List Str} {n : Nat}
    {seen errs seen2 : List Str} (h : vRow header row n seen = .ok (errs, seen2)) :
    ∀ e ∈ errs, startsWithStr (S "Warning:") e = false := by
  unfold vRow at h
  cases hs : getStrOrRaise (normValidate header row) (S "slug") with
  | error u =>
    rw [hs] at h
    cases u
    simp at h
  | ok rawSlug =>
    rw [hs] at h
    dsimp only at h
    by_cases hemp : pyStrip rawSlug = []
    · rw [if_pos hemp] at h
      rw [Except.ok.injEq, Prod.mk.injEq] at h
      intro e he
      rw [← h.1] at he
      rcases List.mem_singleton.mp he with rfl
      exact rowMsg_not_warning _ _
    · rw [if_neg hemp] at h
      cases ht : getStrOrRaise (normValidate header row) (S "title") with
      | error u =>
        rw [ht] at h
        cases u
        simp at h
      | ok rawTitle =>
        rw [ht] at h
        dsimp only at h
        cases hm : getStrOrRaise (normValidate header row) (S "meta_description") with
        | error u =>
          rw [hm] at h
          cases u
          simp at h
        | ok rawMeta =>
          rw [hm] at h
          dsimp only at h
          rw [Except.ok.injEq, Prod.mk.injEq] at h
          intro e he
          rw [← h.1] at he
          simp only [List.mem_append] at he
          have hsingle : ∀ (c : Prop) [Decidable c] (x : Str),
              e ∈ (if c then [x] else []) → e = x := by
            intro c _ x hx
            by_cases hc : c
            · rw [if_pos hc] at hx
              exact List.mem_singleton.mp hx
            · rw [if_neg hc] at hx
              simp at hx
          rcases he with ((((he | he) | he) | he) | he) | he
          · rw [hsingle _ _ he]
            exact rowMsg_not_warning _ _
          · rw [hsingle _ _ he]
            exact rowMsg_not_warning _ _
          · rw [hsingle _ _ he]
            exact rowMsg_not_warning _ _
          · rw [hsingle _ _ he]
            exact rowMsg_not_warning _ _
          · rw [hsingle _ _ he]
            exact rowMsg_not_warning _ _
          · obtain ⟨kv, _, hkv⟩ := List.mem_filterMap.mp he
            rcases hv : kv.2 with _ | v
            · rw [hv] at hkv
              simp at hkv
            · rw [hv] at hkv
              rw [(if_some_eq_some hkv).1]
              exact rowMsg_not_warning _ _

/-- A clean run of the row-validation loop certifies every row: the row
count stayed within bounds, every row is good, every slug key is fresh
with respect to the incoming seen set, and the keys are pairwise distinct. -/
theorem vRows_ok_sound (header : List Str) : ∀ (rows : List (List Str)) (n : Nat)
    (seen : List Str), vRows header rows n seen = .ok [] →
    (rows ≠ [] → n + rows.length ≤ MAX_ROWS)
    ∧ (∀ r ∈ rows, GoodRow header r)
    ∧ (∀ r ∈ rows, ∀ k, vSlugKey header r = some k → k ∉ seen)
    ∧ (rows.map (vSlugKey header)).Nodup := by
  intro rows
  induction rows with
  | nil =>
    intro n seen _
    exact ⟨fun hne => absurd rfl hne, by simp, by simp, by simp⟩
  | cons r rest ih =>
    intro n seen h
    rw [vRows] at h
    try dsimp only at h
    by_cases hmax : n + 1 > MAX_ROWS
    · rw [if_pos hmax] at h
      simp at h
    · rw [if_neg hmax] at h
      cases hv : vRow header r (n + 1) seen with
      | error u =>
        rw [hv] at h
        cases u
        simp at h
      | ok pr =>
        obtain ⟨errs, seen2⟩ := pr
        rw [hv] at h
        try dsimp only at h
        cases hrec : vRows header rest (n + 1) seen2 with
        | error u =>
          rw [hrec] at h
          cases u
          simp [Except.map] at h
        | ok es2 =>
          rw [hrec] at h
          dsimp only [Except.map] at h
          rw [Except.ok.injEq] at h
          obtain ⟨he, hes⟩ := List.append_eq_nil.mp h
          subst he
          subst hes
          obtain ⟨hgood, k, hk, hkn, hseen2⟩ := vRow_ok_nil hv
          obtain ⟨hlen, hgoods, hfresh, hnodup⟩ := ih (n + 1) seen2 hrec
          subst hseen2
          refine ⟨?_, ?_, ?_, ?_⟩
          · intro _
            cases hr2 : rest with
            | nil => simpa using Nat.not_lt.mp hmax
            | cons a b =>
              have := hlen (by simp [hr2])
              rw [hr2] at this
              simp only [List.length_cons] at this ⊢
              omega
          · intro r2 hr2
            rcases List.mem_cons.mp hr2 with h2 | h2
            · exact h2 ▸ hgood
            · exact hgoods r2 h2
          · intro r2 hr2 k2 hk2
            rcases List.mem_cons.mp hr2 with h2 | h2
            · subst h2
              rw [hk] at hk2
              exact (Option.some.inj hk2) ▸ hkn
            · have := hfresh r2 h2 k2 hk2
              intro hmem
              exact this (List.mem_cons_of_mem _ hmem)
          · rw [List.map_cons]
            refine List.nodup_cons.mpr ⟨?_, hnodup⟩
            intro hmem
            obtain ⟨r2, hr2, hkey⟩ := List.mem_map.mp hmem
            rw [hk] at hkey
            exact hfresh r2 hr2 k hkey (List.mem_cons_self _ _)

/-- No error string the row-validation loop emits carries the warning
marker (they are row messages or the row-count message). -/
theorem vRows_errs_not_warning (header : List Str) : ∀ (rows : List (List Str))
    (n : Nat) (seen es : List Str), vRows header rows n seen = .ok es →
    ∀ e ∈ es, startsWithStr (S "Warning:") e = false := by
  intro rows
  induction rows with
  | nil =>
    intro n seen es h
    rw [vRows] at h
    rw [Except.ok.injEq] at h
    subst h
    simp
  | cons r rest ih =>
    intro n seen es h
    rw [vRows] at h
    try dsimp only at h
    by_cases hmax : n + 1 > MAX_ROWS
    · rw [if_pos hmax] at h
      rw [Except.ok.injEq] at h
      subst h
      intro e he
      rcases List.mem_singleton.mp he with rfl
      decide
    · rw [if_neg hmax] at h
      cases hv : vRow header r (n + 1) seen with
      | error u =>
        rw [hv] at h
        cases u
        simp at h
      | ok pr =>
        obtain ⟨errs, seen2⟩ := pr
        rw [hv] at h
        try dsimp only at h
        cases hrec : vRows header rest (n + 1) seen2 with
        | error u =>
          rw [hrec] at h
          cases u
          simp [Except.map] at h
        | ok es2 =>
          rw [hrec] at h
          dsimp only [Except.map] at h
          rw [Except.ok.injEq] at h
          subst h
          intro e he
          rcases List.mem_append.mp he with h2 | h2
          · exact vRow_errs_not_warning hv e h2
          · exact ih (n + 1) seen2 es2 hrec e h2

/-- On a file that passes every pre-row check, validation reduces to the
row loop plus the unexpected-column warnings. -/
theorem validate_eq_main (content : Str) (header : List Str)
    (rest : List (List Str))
    (h0 : content.length ≠ 0) (h1 : ¬ content.length > MAX_FILE_SIZE)
    (h2 : pyStrip (stripBom content) ≠ [])
    (hr : csvRows (stripBom content) = header :: rest)
    (hh : header ≠ [])
    (hreq : ∀ x ∈ REQUIRED_HEADERS, x ∈ headersLowerOf header) :
    validate_csv_file content =
      match vRows header (dataRows rest) 0 [] with
      | .error _ => (false, [S "Unexpected validation error"])
      | .ok rowErrors =>
        (((rowErrors ++ validateWarnings header).filter
            (fun e => ¬ startsWithStr (S "Warning:") e)).isEmpty,
          rowErrors ++ validateWarnings header) := by
  simp only [validate_csv_file]
  rw [if_neg h0, if_neg h1, if_neg h2, hr]
  dsimp only
  rw [if_neg hh]
  rw [if_neg (by simpa [List.all_eq_true] using hreq)]
  cases hv : vRows header (dataRows rest) 0 [] with
  | error u =>
    cases u
    rfl
  | ok es => rfl

/-- Whenever validation fails, the problem list is non-empty. -/
theorem validate_false_nonempty (content : Str) :
    (validate_csv_file content).1 = false → (validate_csv_file content).2 ≠ [] := by
  intro hfalse
  by_cases h0 : content.length = 0
  · simp only [validate_csv_file, if_pos h0]
    decide
  · by_cases h1 : content.length > MAX_FILE_SIZE
    · simp only [validate_csv_file, if_neg h0, if_pos h1]
      decide
    · by_cases h2 : pyStrip (stripBom content) = []
      · simp only [validate_csv_file, if_neg h0, if_neg h1, if_pos h2]
        decide
      · cases hr : csvRows (stripBom content) with
        | nil =>
          simp only [validate_csv_file, if_neg h0, if_neg h1, if_neg h2]
          rw [hr]
          decide
        | cons header rest =>
          by_cases hh : header = []
          · simp only [validate_csv_file, if_neg h0, if_neg h1, if_neg h2]
            rw [hr]
            dsimp only
            rw [if_pos hh]
            decide
          · by_cases hreq : ∀ x ∈ REQUIRED_HEADERS, x ∈ headersLowerOf header
            · rw [validate_eq_main content header rest h0 h1 h2 hr hh hreq] at hfalse ⊢
              cases hv : vRows header (dataRows rest) 0 [] with
              | error u =>
                dsimp only
                decide
              | ok rowErrors =>
                rw [hv] at hfalse
                dsimp only at hfalse ⊢
                intro hnil
                rw [hnil] at hfalse
                simp at hfalse
            · simp only [validate_csv_file, if_neg h0, if_neg h1, if_neg h2]
              rw [hr]
              dsimp only
              rw [if_neg hh,
                if_pos (by simpa [List.all_eq_true] using hreq)]
              decide

/-- A validation that succeeded went through the main path with a clean
row loop, and its problem list holds only the column warnings. -/
theorem validate_true_main (content : Str)
    (hvalid : (validate_csv_file content).1 = true) :
    ∃ header rest, csvRows (stripBom content) = header :: rest
      ∧ content.length ≠ 0 ∧ ¬ content.length > MAX_FILE_SIZE
      ∧ pyStrip (stripBom content) ≠ [] ∧ header ≠ []
      ∧ (∀ x ∈ REQUIRED_HEADERS, x ∈ headersLowerOf header)
      ∧ vRows header (dataRows rest) 0 [] = .ok []
      ∧ (validate_csv_file content).2 = validateWarnings header := by
  by_cases h0 : content.length = 0
  · rw [show (validate_csv_file content).1 = false by
      simp only [validate_csv_file, if_pos h0]] at hvalid
    simp at hvalid
  · by_cases h1 : content.length > MAX_FILE_SIZE
    · rw [show (validate_csv_file content).1 = false by
        simp only [validate_csv_file, if_neg h0, if_pos h1]] at hvalid
      simp at hvalid
    · by_cases h2 : pyStrip (stripBom content) = []
      · rw [show (validate_csv_file content).1 = false by
          simp only [validate_csv_file, if_neg h0, if_neg h1, if_pos h2]] at hvalid
        simp at hvalid
      · cases hr : csvRows (stripBom content) with
        | nil =>
          rw [show (validate_csv_file content).1 = false by
            simp only [validate_csv_file, if_neg h0, if_neg h1, if_neg h2]
            rw [hr]] at hvalid
          simp at hvalid
        | cons header rest =>
          by_cases hh : header = []
          · rw [show (validate_csv_file content).1 = false by
              simp only [validate_csv_file, if_neg h0, if_neg h1, if_neg h2]
              rw [hr]
              dsimp only
              rw [if_pos hh]] at hvalid
            simp at hvalid
          · by_cases hreq : ∀ x ∈ REQUIRED_HEADERS, x ∈ headersLowerOf header
            · rw [validate_eq_main content header rest h0 h1 h2 hr hh hreq] at hvalid
              cases hv : vRows header (dataRows rest) 0 [] with
              | error u =>
                rw [hv] at hvalid
                simp at hvalid
              | ok rowErrors =>
                rw [hv] at hvalid
                dsimp only at hvalid
                have hre : rowErrors = [] := by
                  cases hres : rowErrors with
                  | nil => rfl
                  | cons e es =>
                    exfalso
                    have hfe := List.filter_eq_nil_iff.mp (List.isEmpty_iff.mp hvalid) e
                      (by rw [hres]; simp)
                    have hnw := vRows_errs_not_warning header _ _ _ _ hv e
                      (by rw [hres]; simp)
                    rw [hnw] at hfe
                    simp at hfe
                refine ⟨header, rest, rfl, h0, h1, h2, hh, hreq, hre ▸ hv, ?_⟩
                rw [validate_eq_main content header rest h0 h1 h2 hr hh hreq, hv]
                dsimp only
                rw [hre]
                rfl
            · rw [show (validate_csv_file content).1 = false by
                simp only [validate_csv_file, if_neg h0, if_neg h1, if_neg h2]
                rw [hr]
                dsimp only
                rw [if_neg hh, if_pos (by simpa [List.all_eq_true] using hreq)]] at hvalid
              simp at hvalid

/-- C7: `validate(bytes)` is a total function returning an `(ok, problems)`
pair, and: whenever `ok` is false the problem list is non-empty; an empty
file and an oversized file fail; a parsed header row missing a required
column fails; a validation that succeeds certifies that there were at most
10,000 data rows and that every data row passed all per-row checks with
pairwise distinct case-folded slugs (contrapositive of the row-failure
cases: empty, malformed, traversal-carrying or duplicated slugs, and
over-long fields all force `ok = false`); extra unrecognized columns never
make `ok` false when the row loop is clean, and on a valid file every
reported problem is a warning. -/
theorem claim_C7 :
    (∀ content : Str, (validate_csv_file content).1 = false →
        (validate_csv_file content).2 ≠ [])
    ∧ (∀ content : Str, content = [] →
        validate_csv_file content = (false, [S "File is empty"]))
    ∧ (∀ content : Str, content.length > MAX_FILE_SIZE →
        (validate_csv_file content).1 = false)
    ∧ (∀ (content : Str) (header : List Str) (rest : List (List Str)),
        csvRows (stripBom content) = header :: rest →
        ¬ (∀ x ∈ REQUIRED_HEADERS, x ∈ headersLowerOf header) →
        (validate_csv_file content).1 = false)
    ∧ (∀ (content : Str) (header : List Str) (rest : List (List Str)),
        csvRows (stripBom content) = header :: rest →
        (validate_csv_file content).1 = true →
        (dataRows rest).length ≤ MAX_ROWS
        ∧ (∀ r ∈ dataRows rest, GoodRow header r)
        ∧ ((dataRows rest).map (vSlugKey header)).Nodup)
    ∧ (∀ (content : Str) (header : List Str) (rest : List (List Str)),
        content.length ≠ 0 → ¬ content.length > MAX_FILE_SIZE →
        pyStrip (stripBom content) ≠ [] →
        csvRows (stripBom content) = header :: rest →
        header ≠ [] →
        (∀ x ∈ REQUIRED_HEADERS, x ∈ headersLowerOf header) →
        vRows header (dataRows rest) 0 [] = .ok [] →
        (validate_csv_file content).1 = true)
    ∧ (∀ content : Str, (validate_csv_file content).1 = true →
        ∀ e ∈ (validate_csv_file content).2,
          startsWithStr (S "Warning:") e = true) := by
  refine ⟨validate_false_nonempty, ?_, ?_, ?_, ?_, ?_, ?_⟩
  · intro content h
    subst h
    decide
  · intro content h
    have h0 : content.length ≠ 0 := by
      have : MAX_FILE_SIZE = 10485760 := rfl
      omega
    simp only [validate_csv_file, if_neg h0, if_pos h]
  · intro content header rest hr hmiss
    by_cases h0 : content.length = 0
    · simp only [validate_csv_file, if_pos h0]
    · by_cases h1 : content.length > MAX_FILE_SIZE
      · simp only [validate_csv_file, if_neg h0, if_pos h1]
      · by_cases h2 : pyStrip (stripBom content) = []
        · simp only [validate_csv_file, if_neg h0, if_neg h1, if_pos h2]
        · simp only [validate_csv_file, if_neg h0, if_neg h1, if_neg h2]
          rw [hr]
          dsimp only
          by_cases hh : header = []
          · rw [if_pos hh]
          · rw [if_neg hh, if_pos (by simpa [List.all_eq_true] using hmiss)]
  · intro content header rest hr hvalid
    obtain ⟨header2, rest2, hr2, _, _, _, _, _, hv, _⟩ := validate_true_main content hvalid
    rw [hr] at hr2
    obtain ⟨hhe, hre⟩ := List.cons.inj hr2
    subst hhe
    subst hre
    obtain ⟨hlen, hgoods, _, hnodup⟩ := vRows_ok_sound header _ 0 [] hv
    refine ⟨?_, hgoods, hnodup⟩
    cases hfe : dataRows rest with
    | nil => simp [MAX_ROWS]
    | cons a b =>
      have := hlen (by simp [hfe])
      rw [hfe] at this
      omega
  · intro content header rest h0 h1 h2 hr hh hreq hv
    rw [validate_eq_main content header rest h0 h1 h2 hr hh hreq, hv]
    dsimp only
    rw [List.nil_append]
    have hwf : (validateWarnings header).filter
        (fun e => ¬ startsWithStr (S "Warning:") e) = [] := by
      unfold validateWarnings
      by_cases hw : (headersLowerOf header).any
          (fun h => ¬ (h ∈ REQUIRED_HEADERS ∨ h ∈ OPTIONAL_HEADERS))
      · rw [if_pos hw]
        decide
      · rw [if_neg hw]
        rfl
    rw [hwf]
    rfl
  · intro content hvalid e he
    obtain ⟨header, rest, _, _, _, _, _, _, _, hprob⟩ := validate_true_main content hvalid
    rw [hprob] at he
    unfold validateWarnings at he
    by_cases hw : (headersLowerOf header).any
        (fun h => ¬ (h ∈ REQUIRED_HEADERS ∨ h ∈ OPTIONAL_HEADERS))
    · rw [if_pos hw] at he
      rcases List.mem_singleton.mp he with rfl
      decide
    · rw [if_neg hw] at he
      simp at he

/-- C7 witness: the theorem applied at concrete inputs — a failing file
with a non-empty problem list, the empty file, an oversized file, a file
missing the `meta_description` column, a valid file certified row-clean,
the validity of a clean file with an extra column, and the warnings-only
problem list of a valid file. -/
theorem claim_C7_witness :
    (validate_csv_file (S "slug,title\n/a,T\n")).2 ≠ []
    ∧ validate_csv_file (S "") = (false, [S "File is empty"])
    ∧ (validate_csv_file (List.replicate 10485761 'a')).1 = false
    ∧ (validate_csv_file (S "slug,title\n/a,T\n")).1 = false
    ∧ (∀ r ∈ dataRows [[S "/a", S "T", S "M"]],
        GoodRow [S "slug", S "title", S "meta_description"] r)
    ∧ (validate_csv_file (S "slug,title,meta_description,extra\n/a,T,M,x\n")).1 = true
    ∧ (∀ e ∈ (validate_csv_file (S "slug,title,meta_description,extra\n/a,T,M,x\n")).2,
        startsWithStr (S "Warning:") e = true) := by
  refine ⟨claim_C7.1 (S "slug,title\n/a,T\n") (by decide),
    claim_C7.2.1 (S "") rfl,
    claim_C7.2.2.1 (List.replicate 10485761 'a')
      (by rw [List.length_replicate]; decide),
    claim_C7.2.2.2.1 (S "slug,title\n/a,T\n") [S "slug", S "title"]
      [[S "/a", S "T"]] (by decide) (by decide),
    (claim_C7.2.2.2.2.1 (S "slug,title,meta_description\n/a,T,M\n")
      [S "slug", S "title", S "meta_description"] [[S "/a", S "T", S "M"]]
      (by decide) (by decide)).2.1,
    claim_C7.2.2.2.2.2.1 (S "slug,title,meta_description,extra\n/a,T,M,x\n")
      [S "slug", S "title", S "meta_description", S "extra"]
      [[S "/a", S "T", S "M", S "x"]]
      (by decide) (by decide) (by decide) (by decide) (by decide) (by decide)
      (by decide),
    fun e he => claim_C7.2.2.2.2.2.2
      (S "slug,title,meta_description,extra\n/a,T,M,x\n") (by decide) e he⟩

/-! ## Duplicate handling in the parse loop -/

/-- Is an `Except` value a success? -/
def exceptIsOk {ε α : Type} : Except ε α → Bool
  | .ok _ => true
  | .error _ => false

/-- A parse row that passes the loop completely: it has a normalised slug
key and its schema construction succeeds. -/
def RowOk (header : List Str) (now : Nat) (row : List Str) : Prop :=
  (pSlugKey header row).isSome = true
  ∧ exceptIsOk (pRowPage header row now) = true

/-- A passing parse row is a decidable condition. -/
instance (header : List Str) (now : Nat) (row : List Str) :
    Decidable (RowOk header now row) :=
  inferInstanceAs (Decidable (_ ∧ _))

/-- The rows the parse loop actually keeps: later rows whose slug key was
already seen are removed, keeping the first occurrence. -/
def dedupF (header : List Str) : List Str → List (List Str) → List (List Str)
  | _, [] => []
  | seen, r :: rest =>
    match pSlugKey header r with
    | some k =>
        if k ∈ seen then dedupF header seen rest
        else r :: dedupF header (k :: seen) rest
    | none => r :: dedupF header seen rest

/-- The page a kept row builds (placeholder for rows whose construction
fails, unreachable under `RowOk`). -/
def buildRow (header : List Str) (now : Nat) (row : List Str) : PageSchema :=
  match pRowPage header row now with
  | .ok p => p
  | .error _ => ⟨[], none, none, 0⟩

/-- Over rows that all pass, the parse loop returns exactly the built
pages of the first-occurrence rows, and no errors. -/
theorem pLoop_good (header : List Str) (now : Nat) :
    ∀ (rows : List (List Str)) (n : Nat) (seen : List Str),
    (∀ r ∈ rows, RowOk header now r) →
    pLoop header now rows n seen
      = ((dedupF header seen rows).map (buildRow header now), []) := by
  intro rows
  induction rows with
  | nil =>
    intro n seen _
    rfl
  | cons r rest ih =>
    intro n seen hok
    obtain ⟨hks, hps⟩ := hok r (by simp)
    obtain ⟨k, hk⟩ := Option.isSome_iff_exists.mp hks
    rw [pLoop, dedupF, hk]
    dsimp only
    by_cases hmem : k ∈ seen
    · rw [if_pos hmem, if_pos hmem]
      exact ih _ _ (fun r2 h2 => hok r2 (by simp [h2]))
    · rw [if_neg hmem, if_neg hmem]
      cases hp : pRowPage header r now with
      | error msg =>
        rw [hp] at hps
        simp [exceptIsOk] at hps
      | ok page =>
        rw [ih _ _ (fun r2 h2 => hok r2 (by simp [h2]))]
        dsimp only
        rw [List.map_cons]
        have : buildRow header now r = page := by
          rw [buildRow, hp]
        rw [this]

/-- A later row whose slug key already occurred earlier (or is in the
incoming seen set) does not change the kept rows. -/
theorem dedupF_drop (header : List Str) (r : List Str) (k : Str)
    (hk : pSlugKey header r = some k) :
    ∀ (pre : List (List Str)) (seen : List Str) (post : List (List Str)),
    (k ∈ pre.filterMap (pSlugKey header) ∨ k ∈ seen) →
    dedupF header seen (pre ++ r :: post) = dedupF header seen (pre ++ post) := by
  intro pre
  induction pre with
  | nil =>
    intro seen post hmem
    rcases hmem with h | h
    · simp at h
    · rw [List.nil_append, List.nil_append, dedupF, hk]
      dsimp only
      rw [if_pos h]
  | cons p pre ih =>
    intro seen post hmem
    rw [List.cons_append, List.cons_append, dedupF, dedupF]
    cases hp : pSlugKey header p with
    | none =>
      rw [ih seen post (by
        rcases hmem with h | h
        · rw [List.filterMap_cons, hp] at h
          exact Or.inl h
        · exact Or.inr h)]
    | some kp =>
      dsimp only
      by_cases hkp : kp ∈ seen
      · rw [if_pos hkp, if_pos hkp]
        refine ih seen post ?_
        rcases hmem with h | h
        · rw [List.filterMap_cons, hp] at h
          rcases List.mem_cons.mp h with h2 | h2
          · exact Or.inr (h2 ▸ hkp)
          · exact Or.inl h2
        · exact Or.inr h
      · rw [if_neg hkp, if_neg hkp]
        rw [ih (kp :: seen) post (by
          rcases hmem with h | h
          · rw [List.filterMap_cons, hp] at h
            rcases List.mem_cons.mp h with h2 | h2
            · exact Or.inr (h2 ▸ List.mem_cons_self _ _)
            · exact Or.inl h2
          · exact Or.inr (List.mem_cons_of_mem _ h))]

/-- C8: on a CSV whose data rows all pass the parse loop, `parse` succeeds
and returns exactly one record per distinct normalised slug — the record
built from the first row carrying that slug; and removing a later row
whose slug key already appeared in an earlier row leaves the parse loop
result unchanged (later duplicate occurrences are silently dropped, raise
nothing, and do not appear in the result). -/
theorem claim_C8 (content : Str) (now : Nat) (header : List Str)
    (rest : List (List Str))
    (hr : csvRows (stripBom content) = header :: rest)
    (hok : ∀ r ∈ dataRows rest, RowOk header now r)
    (hne : dataRows rest ≠ []) :
    parse_csv content now
      = .ok ((dedupF header [] (dataRows rest)).map (buildRow header now))
    ∧ (∀ (pre post : List (List Str)) (r : List Str) (k : Str),
        dataRows rest = pre ++ r :: post →
        pSlugKey header r = some k →
        k ∈ pre.filterMap (pSlugKey header) →
        pLoop header now (dataRows rest) 0 []
          = pLoop header now (pre ++ post) 0 []) := by
  constructor
  · unfold parse_csv
    rw [hr]
    dsimp only
    rw [pLoop_good header now _ 0 [] hok]
    unfold parseFinish
    rw [if_neg (by simp)]
    have hded : dedupF header [] (dataRows rest) ≠ [] := by
      cases hdr : dataRows rest with
      | nil => exact absurd hdr hne
      | cons a b =>
        obtain ⟨hks, _⟩ := hok a (by rw [hdr]; simp)
        obtain ⟨k, hk⟩ := Option.isSome_iff_exists.mp hks
        rw [dedupF, hk]
        dsimp only
        rw [if_neg (by simp)]
        simp
    rw [if_neg (by simpa using hded)]
  · intro pre post r k hsplit hk hdup
    have hok2 : ∀ r2 ∈ pre ++ post, RowOk header now r2 := by
      intro r2 h2
      refine hok r2 ?_
      rw [hsplit]
      rcases List.mem_append.mp h2 with h3 | h3
      · exact List.mem_append.mpr (Or.inl h3)
      · exact List.mem_append.mpr (Or.inr (List.mem_cons_of_mem _ h3))
    rw [hsplit, pLoop_good header now _ 0 [] (hsplit ▸ hok),
      pLoop_good header now _ 0 [] hok2,
      dedupF_drop header r k hk pre [] post (Or.inl hdup)]

/-- C8 witness: the theorem applied to a concrete CSV whose two rows have
the slugs `/a` and `/A` (equal after case folding): parse keeps only the
first row, and the parse loop over both rows equals the loop over the
first row alone. -/
theorem claim_C8_witness :
    parse_csv (S "slug,title,meta_description\n/a,T,M\n/A,T2,M2\n") 5
      = .ok [⟨S "/a", some (S "T"), some (S "M"), 5⟩]
    ∧ pLoop [S "slug", S "title", S "meta_description"] 5
        [[S "/a", S "T", S "M"], [S "/A", S "T2", S "M2"]] 0 []
      = pLoop [S "slug", S "title", S "meta_description"] 5
        [[S "/a", S "T", S "M"]] 0 [] := by
  have h := claim_C8 (S "slug,title,meta_description\n/a,T,M\n/A,T2,M2\n") 5
    [S "slug", S "title", S "meta_description"]
    [[S "/a", S "T", S "M"], [S "/A", S "T2", S "M2"]]
    (by decide) (by decide) (by decide)
  refine ⟨h.1.trans (by decide), ?_⟩
  have h2 := h.2 [[S "/a", S "T", S "M"]] [] [S "/A", S "T2", S "M2"] (S "/a")
    (by decide) (by decide) (by decide)
  have hd : dataRows [[S "/a", S "T", S "M"], [S "/A", S "T2", S "M2"]]
      = [[S "/a", S "T", S "M"], [S "/A", S "T2", S "M2"]] := by decide
  rw [hd] at h2
  simpa using h2

/-! ## The upload orchestrator -/

/-- The three counters of the diff loop partition the parsed rows, and
the number of audit entries logged is exactly added + updated. -/
theorem uploadLoop_counts (exMap : List (Str × PageSchema)) (username : Str)
    (ip : Option Str) (ua : Str) (now : Nat) (ids : Nat → Str) :
    ∀ (pages : List PageSchema) (k : Nat),
    (uploadLoop exMap username ip ua now ids pages k).1
        + (uploadLoop exMap username ip ua now ids pages k).2.1
        + (uploadLoop exMap username ip ua now ids pages k).2.2.1
      = pages.length
    ∧ (uploadLoop exMap username ip ua now ids pages k).2.2.2.length
      = (uploadLoop exMap username ip ua now ids pages k).1
        + (uploadLoop exMap username ip ua now ids pages k).2.1 := by
  intro pages
  induction pages with
  | nil =>
    intro k
    exact ⟨rfl, rfl⟩
  | cons page rest ih =>
    intro k
    rw [uploadLoop]
    cases hg : dGet exMap page.slug with
    | some old =>
      dsimp only
      by_cases hch : old.title ≠ page.title ∨ old.meta_description ≠ page.meta_description
      · rw [if_pos hch]
        obtain ⟨ih1, ih2⟩ := ih (k + 1)
        dsimp only
        constructor
        · try simp only [List.length_cons]
          omega
        · try simp only [List.length_cons]
          omega
      · rw [if_neg hch]
        obtain ⟨ih1, ih2⟩ := ih k
        dsimp only
        constructor
        · try simp only [List.length_cons]
          omega
        · try simp only [List.length_cons]
          omega
    | none =>
      dsimp only
      obtain ⟨ih1, ih2⟩ := ih (k + 1)
      constructor
      · try simp only [List.length_cons]
        omega
      · try simp only [List.length_cons]
        omega

/-- When the audit collection stays within capacity, the sequential
appends of the upload are one plain concatenation (no rotation). -/
theorem foldl_append_audit (es : List AuditLogSchema) :
    ∀ (a : List AuditLogSchema), a.length + es.length ≤ MAX_AUDIT_RECORDS →
    es.foldl append_audit_log a = a ++ es := by
  induction es with
  | nil =>
    intro a _
    simp
  | cons e es ih =>
    intro a hlen
    rw [List.foldl_cons]
    have hl1 : (a ++ [e]).length = a.length + 1 := by simp
    have hl2 : a.length + (es.length + 1) ≤ MAX_AUDIT_RECORDS := by
      simpa using hlen
    have hone : append_audit_log a e = a ++ [e] := by
      unfold append_audit_log
      rw [if_neg (by omega)]
    rw [hone, ih (a ++ [e]) (by omega)]
    simp

/-- The success path of `upload_csv`, characterised: a success response
certifies that parsing succeeded, the counters came from the diff loop
over the parsed pages, the post-state pages are exactly the parsed pages,
and the post-state audit collection is the fold of the logged entries. -/
theorem upload_success (st : StoreState) (filename content username : Str)
    (ip : Option Str) (ua : Str) (now : Nat) (ids : Nat → Str)
    (msg : Str) (errs : List Str) (proc a u c : Nat)
    (h : (upload_csv st filename content username ip ua now ids).1
      = .htmx true msg errs proc a u c) :
    ∃ newPages, parse_csv content now = .ok newPages
      ∧ proc = newPages.length
      ∧ a = (uploadLoop (pagesMap st.pages) username ip ua now ids newPages 0).1
      ∧ u = (uploadLoop (pagesMap st.pages) username ip ua now ids newPages 0).2.1
      ∧ c = (uploadLoop (pagesMap st.pages) username ip ua now ids newPages 0).2.2.1
      ∧ (upload_csv st filename content username ip ua now ids).2
        = { pages := newPages,
            audit := (uploadLoop (pagesMap st.pages) username ip ua now ids
              newPages 0).2.2.2.foldl append_audit_log st.audit } := by
  unfold upload_csv at h ⊢
  by_cases h1 : filename = []
  · rw [if_pos h1] at h
    simp at h
  · rw [if_neg h1] at h ⊢
    by_cases h2 : ¬ endsWithStr (S ".csv") (toLowerStr filename)
    · rw [if_pos h2] at h
      simp at h
    · rw [if_neg h2] at h ⊢
      by_cases h3 : content = []
      · rw [if_pos h3] at h
        simp at h
      · rw [if_neg h3] at h ⊢
        dsimp only at h ⊢
        by_cases h4 : ¬ (validate_csv_file content).1
        · rw [if_pos h4] at h
          simp at h
        · rw [if_neg h4] at h ⊢
          cases h5 : parse_csv content now with
          | error e =>
            rw [h5] at h
            simp at h
          | ok newPages =>
            rw [h5] at h
            dsimp only at h ⊢
            cases h6 : save_pages newPages with
            | error e =>
              rw [h6] at h
              simp at h
            | ok ps =>
              rw [h6] at h
              dsimp only at h ⊢
              rw [UploadResult.htmx.injEq] at h
              obtain ⟨_, _, _, hproc, ha, hu, hc⟩ := h
              have hps : ps = newPages := by
                unfold save_pages at h6
                by_cases h7 : newPages.length > MAX_PAGES
                · rw [if_pos h7] at h6
                  simp at h6
                · rw [if_neg h7] at h6
                  exact (Except.ok.inj h6).symm
              exact ⟨newPages, rfl, hproc.symm, ha.symm, hu.symm, hc.symm,
                by rw [hps]⟩

/-- C1 counterexample: the claim fails as stated. With a stored page
`/a` (title `T`, description `M`) and an upload of the identical single
row, the upload succeeds with one parsed row classified unchanged — and
zero audit entries are appended, not one per parsed row. -/
theorem claim_C1_counterexample :
    (upload_csv ⟨[⟨S "/a", some (S "T"), some (S "M"), 0⟩], []⟩ (S "f.csv")
        (S "slug,title,meta_description\n/a,T,M\n") (S "admin") none (S "ua") 7
        (fun _ => S "id")).1
      = .htmx true (S "Successfully processed") [] 1 0 0 1
    ∧ ((upload_csv ⟨[⟨S "/a", some (S "T"), some (S "M"), 0⟩], []⟩ (S "f.csv")
        (S "slug,title,meta_description\n/a,T,M\n") (S "admin") none (S "ua") 7
        (fun _ => S "id")).2).audit = [] := by
  exact ⟨by decide, by decide⟩

/-- C1 as amended: on every successful upload the added, updated and
unchanged counters partition the parsed rows, and the audit recorder is
invoked once per added or updated row only — unchanged rows produce no
audit entry — so (when the collection stays within its rotation capacity)
exactly added + updated entries are appended per upload. -/
theorem claim_C1 (st : StoreState) (filename content username : Str)
    (ip : Option Str) (ua : Str) (now : Nat) (ids : Nat → Str)
    (msg : Str) (errs : List Str) (proc a u c : Nat)
    (h : (upload_csv st filename content username ip ua now ids).1
      = .htmx true msg errs proc a u c) :
    a + u + c = proc
    ∧ (st.audit.length + (a + u) ≤ MAX_AUDIT_RECORDS →
        ∃ E : List AuditLogSchema, E.length = a + u
          ∧ ((upload_csv st filename content username ip ua now ids).2).audit
            = st.audit ++ E) := by
  obtain ⟨newPages, _, hproc, ha, hu, hc, hstate⟩ :=
    upload_success st filename content username ip ua now ids msg errs proc a u c h
  obtain ⟨hcnt, hlen⟩ :=
    uploadLoop_counts (pagesMap st.pages) username ip ua now ids newPages 0
  constructor
  · rw [ha, hu, hc, hproc]
    omega
  · intro hcap
    refine ⟨(uploadLoop (pagesMap st.pages) username ip ua now ids newPages 0).2.2.2,
      ?_, ?_⟩
    · rw [hlen, ← ha, ← hu]
    · rw [hstate]
      exact foldl_append_audit _ st.audit (by rw [hlen, ← ha, ← hu]; exact hcap)

/-- C1 witness: the amended theorem applied to a concrete upload of one
new page into an empty store: counters 1/0/0 over 1 processed row, and
the audit collection grows by exactly one entry. -/
theorem claim_C1_witness :
    1 + 0 + 0 = 1
    ∧ ∃ E : List AuditLogSchema, E.length = 1 + 0
      ∧ ((upload_csv ⟨[], []⟩ (S "f.csv") (S "slug,title,meta_description\n/a,T,M\n")
          (S "admin") none (S "ua") 7 (fun _ => S "id")).2).audit = [] ++ E := by
  have h := claim_C1 ⟨[], []⟩ (S "f.csv") (S "slug,title,meta_description\n/a,T,M\n")
    (S "admin") none (S "ua") 7 (fun _ => S "id") (S "Successfully processed") [] 1 1 0 0
    (by decide)
  exact ⟨h.1, h.2 (by decide)⟩

/-- C2: every successful upload replaces the stored page collection with
exactly the parsed record set — a full overwrite, not a merge: any record
present in storage before the upload whose slug does not occur in the
uploaded file is gone from the stored collection afterwards. -/
theorem claim_C2 (st : StoreState) (filename content username : Str)
    (ip : Option Str) (ua : Str) (now : Nat) (ids : Nat → Str)
    (msg : Str) (errs : List Str) (proc a u c : Nat)
    (h : (upload_csv st filename content username ip ua now ids).1
      = .htmx true msg errs proc a u c) :
    ∃ newPages, parse_csv content now = .ok newPages
      ∧ ((upload_csv st filename content username ip ua now ids).2).pages = newPages
      ∧ ∀ p ∈ st.pages, (∀ q ∈ newPages, q.slug ≠ p.slug) →
          ∀ q ∈ ((upload_csv st filename content username ip ua now ids).2).pages,
            q.slug ≠ p.slug := by
  obtain ⟨newPages, hparse, _, _, _, _, hstate⟩ :=
    upload_success st filename content username ip ua now ids msg errs proc a u c h
  refine ⟨newPages, hparse, by rw [hstate], ?_⟩
  intro p _ hq q hqmem
  rw [hstate] at hqmem
  exact hq q hqmem

/-- C2 witness: the theorem applied to a concrete upload over a store
holding `/old`: afterwards the collection is exactly the parsed row and
no record with slug `/old` remains. -/
theorem claim_C2_witness :
    ((upload_csv ⟨[⟨S "/old", none, none, 0⟩], []⟩ (S "f.csv")
        (S "slug,title,meta_description\n/a,T,M\n") (S "admin") none (S "ua") 7
        (fun _ => S "id")).2).pages = [⟨S "/a", some (S "T"), some (S "M"), 7⟩]
    ∧ ∀ q ∈ ((upload_csv ⟨[⟨S "/old", none, none, 0⟩], []⟩ (S "f.csv")
        (S "slug,title,meta_description\n/a,T,M\n") (S "admin") none (S "ua") 7
        (fun _ => S "id")).2).pages, q.slug ≠ S "/old" := by
  obtain ⟨newPages, hparse, hpages, hrem⟩ :=
    claim_C2 ⟨[⟨S "/old", none, none, 0⟩], []⟩ (S "f.csv")
      (S "slug,title,meta_description\n/a,T,M\n") (S "admin") none (S "ua") 7
      (fun _ => S "id") (S "Successfully processed") [] 1 1 0 0 (by decide)
  have hnp : newPages = [⟨S "/a", some (S "T"), some (S "M"), 7⟩] :=
    Except.ok.inj (hparse.symm.trans (by decide))
  refine ⟨by rw [hpages, hnp], ?_⟩
  intro q hq
  refine hrem ⟨S "/old", none, none, 0⟩ (by decide) ?_ q hq
  intro q2 hq2
  rw [hnp] at hq2
  rcases List.mem_singleton.mp hq2 with rfl
  decide

/-- C4 counterexample: the claim fails as stated. A `.csv` upload whose
content is only the header row passes validation, is rejected at the
parse stage for carrying zero valid records — and that rejection carries
an empty problem list (the failure message is not accompanied by any
problem entries), although the stored collection is indeed unchanged. -/
theorem claim_C4_counterexample :
    (upload_csv ⟨[], []⟩ (S "f.csv") (S "slug,title,meta_description\n")
        (S "admin") none (S "ua") 7 (fun _ => S "id")).1
      = .htmx false (S "No valid pages found in CSV file") [] 0 0 0 0
    ∧ problemsOf ((upload_csv ⟨[], []⟩ (S "f.csv") (S "slug,title,meta_description\n")
        (S "admin") none (S "ua") 7 (fun _ => S "id")).1) = []
    ∧ (upload_csv ⟨[], []⟩ (S "f.csv") (S "slug,title,meta_description\n")
        (S "admin") none (S "ua") 7 (fun _ => S "id")).2 = ⟨[], []⟩ := by
  exact ⟨by decide, by decide, by decide⟩

/-- C4 as amended: every upload rejected before the diff-and-persist
phase — missing or non-`.csv` filename, empty content, validation
failure, or parse failure — leaves the stored state untouched; the
response carries a non-empty problem list in the filename, emptiness and
validation cases (and in parse failures carrying row errors), while a
parse-stage rejection for zero valid records carries a failure message
with an empty problem list (see the counterexample). -/
theorem claim_C4 (st : StoreState) (filename content username : Str)
    (ip : Option Str) (ua : Str) (now : Nat) (ids : Nat → Str) :
    (filename = [] →
      upload_csv st filename content username ip ua now ids
        = (.httpError 400 (S "No file provided"), st))
    ∧ (filename ≠ [] → endsWithStr (S ".csv") (toLowerStr filename) = false →
      upload_csv st filename content username ip ua now ids
        = (.httpError 400 (S "Invalid file type. Only CSV files are allowed."), st))
    ∧ (filename ≠ [] → endsWithStr (S ".csv") (toLowerStr filename) = true →
        content = [] →
      upload_csv st filename content username ip ua now ids
        = (.httpError 400 (S "Empty file uploaded"), st))
    ∧ (filename ≠ [] → endsWithStr (S ".csv") (toLowerStr filename) = true →
        content ≠ [] → (validate_csv_file content).1 = false →
      upload_csv st filename content username ip ua now ids
        = (.htmx false (S "CSV validation failed") (validate_csv_file content).2
            0 0 0 0, st)
      ∧ (validate_csv_file content).2 ≠ [])
    ∧ (∀ e : CSVError, filename ≠ [] →
        endsWithStr (S ".csv") (toLowerStr filename) = true →
        content ≠ [] → (validate_csv_file content).1 = true →
        parse_csv content now = .error e →
      upload_csv st filename content username ip ua now ids
        = (.htmx false e.message e.errorsDetail 0 0 0 0, st)) := by
  refine ⟨?_, ?_, ?_, ?_, ?_⟩
  · intro h1
    unfold upload_csv
    rw [if_pos h1]
  · intro h1 h2
    unfold upload_csv
    rw [if_neg h1, if_pos (by simp [h2])]
  · intro h1 h2 h3
    unfold upload_csv
    rw [if_neg h1, if_neg (by simp [h2]), if_pos h3]
  · intro h1 h2 h3 h4
    constructor
    · unfold upload_csv
      rw [if_neg h1, if_neg (by simp [h2]), if_neg h3]
      dsimp only
      rw [if_pos (by simp [h4])]
    · exact validate_false_nonempty content h4
  · intro e h1 h2 h3 h4 h5
    unfold upload_csv
    rw [if_neg h1, if_neg (by simp [h2]), if_neg h3]
    dsimp only
    rw [if_neg (by simp [h4]), h5]

/-- C4 witness: the amended theorem applied to concrete rejected uploads —
a non-`.csv` filename, an empty file, a file missing the
`meta_description` column (with its non-empty problem list), and a
header-only file rejected at the parse stage. -/
theorem claim_C4_witness :
    upload_csv ⟨[], []⟩ (S "f.txt") (S "x") (S "admin") none (S "ua") 7
        (fun _ => S "id")
      = (.httpError 400 (S "Invalid file type. Only CSV files are allowed."),
         ⟨[], []⟩)
    ∧ upload_csv ⟨[], []⟩ (S "f.csv") (S "") (S "admin") none (S "ua") 7
        (fun _ => S "id")
      = (.httpError 400 (S "Empty file uploaded"), ⟨[], []⟩)
    ∧ (upload_csv ⟨[], []⟩ (S "f.csv") (S "slug,title\n/a,T\n") (S "admin") none
        (S "ua") 7 (fun _ => S "id")
      = (.htmx false (S "CSV validation failed")
          (validate_csv_file (S "slug,title\n/a,T\n")).2 0 0 0 0, ⟨[], []⟩)
      ∧ (validate_csv_file (S "slug,title\n/a,T\n")).2 ≠ [])
    ∧ upload_csv ⟨[], []⟩ (S "f.csv") (S "slug,title,meta_description\n")
        (S "admin") none (S "ua") 7 (fun _ => S "id")
      = (.htmx false (S "No valid pages found in CSV file") [] 0 0 0 0, ⟨[], []⟩) :=
  ⟨(claim_C4 ⟨[], []⟩ (S "f.txt") (S "x") (S "admin") none (S "ua") 7
      (fun _ => S "id")).2.1 (by decide) (by decide),
   (claim_C4 ⟨[], []⟩ (S "f.csv") (S "") (S "admin") none (S "ua") 7
      (fun _ => S "id")).2.2.1 (by decide) (by decide) rfl,
   (claim_C4 ⟨[], []⟩ (S "f.csv") (S "slug,title\n/a,T\n") (S "admin") none
      (S "ua") 7 (fun _ => S "id")).2.2.2.1 (by decide) (by decide) (by decide)
      (by decide),
   (claim_C4 ⟨[], []⟩ (S "f.csv") (S "slug,title,meta_description\n")
      (S "admin") none (S "ua") 7 (fun _ => S "id")).2.2.2.2
      ⟨S "No valid pages found in CSV file", []⟩ (by decide) (by decide)
      (by decide) (by decide) (by decide)⟩

end WFA
